import Mathlib

/-!
Verification development for the health-economy dashboard data pipeline
(data_processing.py and machine_learning.py). Tables are embedded as a list
of column names plus positional rows of cells; cell values are missing
(NaN/NaT), rational numbers, strings, nested lists, mappings, sets, or
datetimes. Pandas behaviours that the functions rely on are modelled
explicitly: lookup of a duplicated label uses the first occurrence, missing
join keys match each other, numeric dtype means every cell of the column is
numeric or missing, and exceptions inside a stage produce the empty table
(the catch-log-degrade pattern of the source).
-/

mutual

/-- Cell values of a table. na is NaN; dtime models a datetime64 value
(dtime none is NaT). clist, cdict and cset model nested list, dict and set
values, which pandas stores as python objects; their payloads use the
mutually defined CellList and KVList so that equality of cells is decidable
by structural recursion. -/
inductive Cell where
  | na : Cell
  | num : ℚ → Cell
  | str : String → Cell
  | clist : CellList → Cell
  | cdict : KVList → Cell
  | cset : CellList → Cell
  | dtime : Option ℤ → Cell

inductive CellList where
  | nil : CellList
  | cons : Cell → CellList → CellList

inductive KVList where
  | nil : KVList
  | cons : String → Cell → KVList → KVList

end

deriving instance DecidableEq for Cell

/-- List of the elements of a CellList. -/
def CellList.toList : CellList → List Cell
  | CellList.nil => []
  | CellList.cons x xs => x :: CellList.toList xs

/-- CellList of the elements of a list. -/
def cellsOf : List Cell → CellList
  | [] => CellList.nil
  | x :: xs => CellList.cons x (cellsOf xs)

/-- KVList of an association list. -/
def kvsOf : List (String × Cell) → KVList
  | [] => KVList.nil
  | (k, v) :: xs => KVList.cons k v (kvsOf xs)

/-- A table: column names plus positional rows. A cell beyond the end of a
row reads as missing. -/
structure DF where
  cols : List String
  rows : List (List Cell)

deriving instance DecidableEq for DF

/-- The empty table returned by the except-branches (pd.DataFrame()). -/
def DF.emptyDF : DF := ⟨[], []⟩

/-- Wellformedness: every row has exactly one cell per column. -/
def DF.WF (df : DF) : Prop := ∀ r ∈ df.rows, r.length = df.cols.length

instance (df : DF) : Decidable df.WF :=
  show Decidable (∀ r ∈ df.rows, r.length = df.cols.length) from inferInstance

def sEmpty : String := ""
def sData : String := "data"
def sYear : String := "Year"
def sDate : String := "date"
def sValue : String := "value"
def sCountry : String := "country_code"
def sSeries : String := "series_id"
def sIso : String := "iso_code"
def sDot : String := "."

/-- Index of the first occurrence of a name, as pandas label lookup does for
a (possibly duplicated) column label. -/
def idxOf? (c : String) : List String → Option ℕ
  | [] => none
  | x :: xs => if x = c then some 0 else (idxOf? c xs).map (· + 1)

/-- Cell of row r in the column labelled c (first occurrence); missing when
the label is absent or the row is too short. -/
def colVal (cols : List String) (c : String) (r : List Cell) : Cell :=
  match idxOf? c cols with
  | some i => r.getD i Cell.na
  | none => Cell.na

/-- Checks pandas isna: NaN or NaT. -/
def isNaLike : Cell → Bool
  | Cell.na => true
  | Cell.dtime none => true
  | _ => false

/-- Checks isinstance(x, (list, dict, set)), the complex-type test of
clean_data. -/
def Cell.isComplex : Cell → Bool
  | Cell.clist _ => true
  | Cell.cdict _ => true
  | Cell.cset _ => true
  | _ => false

/-- Numeric scalar extraction. -/
def cellQ? : Cell → Option ℚ
  | Cell.num q => some q
  | _ => none

def isNumCell (v : Cell) : Bool := (cellQ? v).isSome

/-- Projection of a row onto a list of column positions; out-of-range
positions read as missing. -/
def selectIdxs (idxs : List ℕ) (r : List Cell) : List Cell :=
  idxs.map (fun i => r.getD i Cell.na)

/-- Keep only the columns at the given positions (df.loc or df.drop by
columns). -/
def selectColsByIdxs (idxs : List ℕ) (df : DF) : DF :=
  ⟨idxs.map (fun i => df.cols.getD i sEmpty), df.rows.map (selectIdxs idxs)⟩

/-- Positions whose column label has not appeared earlier: the kept columns
of df.loc with the negation of columns.duplicated. -/
def dedupIdxs (cols : List String) : List ℕ :=
  (List.range cols.length).filter (fun i => idxOf? (cols.getD i sEmpty) cols == some i)

/-- Step of clean_data removing duplicate column labels, keeping the first. -/
def dropDupCols (df : DF) : DF := selectColsByIdxs (dedupIdxs df.cols) df

/-- A row is completely empty when every cell over the table width is
missing. -/
def rowAllNa (n : ℕ) (r : List Cell) : Bool :=
  (List.range n).all (fun i => isNaLike (r.getD i Cell.na))

/-- Step of clean_data dropping rows that are completely empty
(dropna with how equal to all). -/
def dropEmptyRows (df : DF) : DF :=
  ⟨df.cols, df.rows.filter (fun r => !(rowAllNa df.cols.length r))⟩

/-- The lambda of clean_data line 23: keep a list value, replace anything
else by the empty list. -/
def fixDataCell : Cell → Cell
  | Cell.clist xs => Cell.clist xs
  | _ => Cell.clist CellList.nil

/-- Step of clean_data ensuring a data column exists and holds lists: if
present, every cell is passed through fixDataCell; otherwise a data column
of empty lists is appended. -/
def ensureDataCol (df : DF) : DF :=
  match idxOf? sData df.cols with
  | some i => ⟨df.cols, df.rows.map (fun r => r.set i (fixDataCell (r.getD i Cell.na)))⟩
  | none => ⟨df.cols ++ [sData], df.rows.map (fun r => r ++ [Cell.clist CellList.nil])⟩

/-- Positions kept by the complex-column drop: the column named data, or any
column none of whose cells is a list, dict or set. -/
def complexKeepIdxs (df : DF) : List ℕ :=
  (List.range df.cols.length).filter
    (fun i => df.cols.getD i sEmpty == sData
      || !(df.rows.any (fun r => (r.getD i Cell.na).isComplex)))

/-- Step of clean_data dropping columns (other than data) that contain a
complex value in some row. -/
def dropComplexCols (df : DF) : DF := selectColsByIdxs (complexKeepIdxs df) df

/-- Keep the first row for each key, dropping later rows with the same key
(drop_duplicates keeps the first occurrence; NaN keys compare equal, as in
pandas). -/
def dedupByKey (key : List Cell → List Cell) :
    List (List Cell) → List (List Cell) → List (List Cell)
  | [], _ => []
  | r :: rest, seen =>
    if key r ∈ seen then dedupByKey key rest seen
    else r :: dedupByKey key rest (key r :: seen)

/-- Projection of a row onto all columns not named data, the subset used by
drop_duplicates in clean_data. -/
def rowKeyNonData (df : DF) (r : List Cell) : List Cell :=
  (((List.range df.cols.length).filter
      (fun i => !(df.cols.getD i sEmpty == sData)))).map (fun i => r.getD i Cell.na)

/-- Projection of a row onto all columns, for the branch of clean_data
without a data column. -/
def rowKeyAll (df : DF) (r : List Cell) : List Cell :=
  (List.range df.cols.length).map (fun i => r.getD i Cell.na)

/-- Step of clean_data dropping duplicate rows, excluding the data column
from the comparison when it exists. -/
def dropDupRows (df : DF) : DF :=
  if sData ∈ df.cols then ⟨df.cols, dedupByKey (rowKeyNonData df) df.rows []⟩
  else ⟨df.cols, dedupByKey (rowKeyAll df) df.rows []⟩

/-- clean_data of data_processing.py: drop duplicate column labels, drop
completely empty rows, force the data column to hold lists (creating it if
absent), drop the other complex-valued columns, then drop duplicate rows on
the non-data columns. The try-except of the source cannot fire in this
model because no step raises. -/
def clean_data (df : DF) : DF :=
  dropDupRows (dropComplexCols (ensureDataCol (dropEmptyRows (dropDupCols df))))

/-- Cells of the column at position i, one per row. -/
def colCellsAt (df : DF) (i : ℕ) : List Cell :=
  df.rows.map (fun r => r.getD i Cell.na)

/-- Cells of the column labelled c, one per row. -/
def colCellsN (df : DF) (c : String) : List Cell :=
  df.rows.map (colVal df.cols c)

/-- The numeric values among a list of cells, as pandas aggregations see
them (missing values skipped). -/
def numsOf (cs : List Cell) : List ℚ := cs.filterMap cellQ?

/-- A column on which the mean can be taken without raising: every cell is
missing or numeric. On any other column the mean call of normalize_data
raises and the stage degrades to the empty table. -/
def numericColOk (cs : List Cell) : Bool :=
  cs.all (fun v => isNaLike v || isNumCell v)

/-- Mean of a list of rationals, absent when the list is empty (the mean of
an all-missing column is NaN). -/
def meanOf (l : List ℚ) : Option ℚ :=
  if l.isEmpty then none else some (l.sum / l.length)

/-- Minimum of a list of rationals, absent when empty (pandas min skips
missing values and is NaN on an empty column). -/
def minOf : List ℚ → Option ℚ
  | [] => none
  | x :: xs => some (xs.foldl min x)

/-- Maximum of a list of rationals, absent when empty. -/
def maxOf : List ℚ → Option ℚ
  | [] => none
  | x :: xs => some (xs.foldl max x)

/-- The fillna step of normalize_data: replace a missing cell by the column
mean; when the mean is itself absent (all-missing column) the cell stays
missing, as fillna with NaN changes nothing. -/
def fillMeanCell (m? : Option ℚ) (v : Cell) : Cell :=
  if isNaLike v then
    match m? with
    | some m => Cell.num m
    | none => Cell.na
  else v

/-- Replace the column at position i by applying f to each of its cells. -/
def setColAt (df : DF) (i : ℕ) (f : Cell → Cell) : DF :=
  ⟨df.cols, df.rows.map (fun r => r.set i (f (r.getD i Cell.na)))⟩

/-- The min-max rescale of one value: (x - min) / (max - min). -/
def rescaleCell (mn mx : ℚ) : Cell → Cell
  | Cell.num x => Cell.num ((x - mn) / (mx - mn))
  | w => w

/-- One iteration of the loop of normalize_data: a missing column is
skipped; a column whose mean raises yields none (the exception path); else
missing cells are filled with the mean, and the column is rescaled when
max - min is nonzero or set to 0.0 otherwise. -/
def normalizeCol (df : DF) (c : String) : Option DF :=
  match idxOf? c df.cols with
  | none => some df
  | some i =>
    let cs := colCellsAt df i
    if !(numericColOk cs) then none
    else
      let m? := meanOf (numsOf cs)
      let df1 := setColAt df i (fillMeanCell m?)
      let ns := numsOf (colCellsAt df1 i)
      match minOf ns, maxOf ns with
      | some mn, some mx =>
        if mx - mn ≠ 0 then some (setColAt df1 i (rescaleCell mn mx))
        else some (setColAt df1 i (fun _ => Cell.num 0))
      | _, _ => some (setColAt df1 i (fun _ => Cell.num 0))

/-- Fold of normalizeCol over the requested columns, stopping at the first
exception. -/
def normalizeGo : DF → List String → Option DF
  | df, [] => some df
  | df, c :: cs =>
    match normalizeCol df c with
    | some df1 => normalizeGo df1 cs
    | none => none

/-- normalize_data of data_processing.py: normalize each requested column in
turn; an internal exception makes the whole call return the empty table. -/
def normalize_data (df : DF) (columns : List String) : DF :=
  match normalizeGo df columns with
  | some out => out
  | none => DF.emptyDF

/-- Row pairs of the pandas inner merge of A and B on Year: one pair for
each left row and matching right row, in left-major order. Missing keys
match each other, as in pandas merge. -/
def mergedRowPairs (A B : DF) : List (List Cell × List Cell) :=
  A.rows.flatMap (fun a =>
    (B.rows.filter (fun b => colVal A.cols sYear a == colVal B.cols sYear b)).map
      (fun b => (a, b)))

/-- Value of column c in a merged row built from left row a and right row b.
The key column reads from the left; a column of exactly one side reads from
that side; a column of both sides exists in the merged frame only under the
suffixes health and econ, so its unsuffixed name is absent (reads as
missing). Lookup of the suffixed names themselves is not modelled; with a
current pandas those collisions raise a MergeError and the stage returns
None, symmetrically in the two tables. -/
def mergedValY (A B : DF) (c : String) (a b : List Cell) : Cell :=
  if c = sYear then colVal A.cols sYear a
  else if c ∈ A.cols ∧ ¬ c ∈ B.cols then colVal A.cols c a
  else if c ∈ B.cols ∧ ¬ c ∈ A.cols then colVal B.cols c b
  else Cell.na

/-- Presence of label c in the merged frame: the key, or a column of exactly
one side. -/
def mergedHasY (A B : DF) (c : String) : Prop :=
  c = sYear ∨ (c ∈ A.cols ∧ ¬ c ∈ B.cols) ∨ (c ∈ B.cols ∧ ¬ c ∈ A.cols)

instance (A B : DF) (c : String) : Decidable (mergedHasY A B c) := by
  unfold mergedHasY
  infer_instance

/-- The two cells named by the target columns, for each merged row. -/
def mergedCellPairs (A B : DF) (hc ec : String) : List (Cell × Cell) :=
  (mergedRowPairs A B).map (fun p => (mergedValY A B hc p.1 p.2, mergedValY A B ec p.1 p.2))

/-- Merged rows surviving dropna on the two target columns. -/
def keptPairs (A B : DF) (hc ec : String) : List (Cell × Cell) :=
  (mergedCellPairs A B hc ec).filter (fun p => !(isNaLike p.1) && !(isNaLike p.2))

/-- Both target cells numeric in every kept row; otherwise the corr call on
an object column does not produce the coefficient and the except path
returns None. -/
def allNumPairs (ps : List (Cell × Cell)) : Bool :=
  ps.all (fun p => isNumCell p.1 && isNumCell p.2)

def qOf : Cell → ℚ
  | Cell.num q => q
  | _ => 0

def qPairs (ps : List (Cell × Cell)) : List (ℚ × ℚ) :=
  ps.map (fun p => (qOf p.1, qOf p.2))

def qmean (l : List ℚ) : ℚ := l.sum / l.length

/-- Sum of squared deviations from the mean; zero exactly when the sample
standard deviation is zero. -/
def devSumSq (l : List ℚ) : ℚ :=
  (l.map (fun x => (x - qmean l) ^ 2)).sum

/-- Sum of products of deviations, the numerator shape of the Pearson
coefficient. -/
def covSumOf (ps : List (ℚ × ℚ)) : ℚ :=
  (ps.map (fun p =>
    (p.1 - qmean (ps.map Prod.fst)) * (p.2 - qmean (ps.map Prod.snd)))).sum

/-- Result of calculate_correlation. noneResult is the python None;
nanResult is a float NaN coefficient (pandas corr with fewer than 2 points
or a zero-variance column); coeff c dsq stands for the real coefficient
c divided by the square root of dsq, where c is the sum of deviation
products and dsq the product of the two sums of squared deviations. The
pair determines the coefficient, and is used because the square root is in
general irrational. -/
inductive CorrOutcome where
  | noneResult : CorrOutcome
  | nanResult : CorrOutcome
  | coeff : ℚ → ℚ → CorrOutcome

deriving instance DecidableEq for CorrOutcome

/-- calculate_correlation of data_processing.py: inner merge on Year (a
missing Year column raises and returns None); return None when the merged
frame has fewer than 2 rows; dropna on the two target columns (an absent
target label raises and returns None); return None when nothing survives;
then the pairwise Pearson coefficient of the two columns, which is NaN when
either column has zero variance (in particular when exactly one row
survived the drop). -/
def calculate_correlation (A B : DF) (hc ec : String) : CorrOutcome :=
  if ¬ (sYear ∈ A.cols ∧ sYear ∈ B.cols) then CorrOutcome.noneResult
  else if (mergedCellPairs A B hc ec).length < 2 then CorrOutcome.noneResult
  else if ¬ (mergedHasY A B hc ∧ mergedHasY A B ec) then CorrOutcome.noneResult
  else if (keptPairs A B hc ec).isEmpty then CorrOutcome.noneResult
  else if ¬ allNumPairs (keptPairs A B hc ec) then CorrOutcome.noneResult
  else
    let ps := qPairs (keptPairs A B hc ec)
    let vx := devSumSq (ps.map Prod.fst)
    let vy := devSumSq (ps.map Prod.snd)
    if vx = 0 ∨ vy = 0 then CorrOutcome.nanResult
    else CorrOutcome.coeff (covSumOf ps) (vx * vy)

/-- Reading of the spec sentence for the correlation join, for comparison:
rows join exactly when both the entity identifier (a column name ent shared
by the two tables) and the year match. -/
def joinedOnEntityYear (ent : String) (A B : DF) : List (List Cell × List Cell) :=
  A.rows.flatMap (fun a =>
    (B.rows.filter (fun b =>
      colVal A.cols ent a == colVal B.cols ent b
        && colVal A.cols sYear a == colVal B.cols sYear b)).map (fun b => (a, b)))

/-- Value of a decimal digit character. -/
def digitVal (c : Char) : ℕ := c.toNat - 48

/-- Parse a nonempty all-digit character list as a natural number. -/
def parseNatDigits? (cs : List Char) : Option ℕ :=
  if cs.isEmpty then none
  else if cs.all Char.isDigit then
    some (cs.foldl (fun n c => n * 10 + digitVal c) 0)
  else none

/-- Model of the year of pandas.to_datetime with errors coerce followed by
dt.year: an ISO-style string yields its leading 4-digit year; a numeric
cell is interpreted as an epoch offset (year 1970, an approximation valid
for in-range magnitudes); an existing datetime keeps its year; anything
else coerces to NaT. -/
def toDatetimeYear? : Cell → Option ℤ
  | Cell.str s =>
    if (s.data.take 4).length = 4 then
      (parseNatDigits? (s.data.take 4)).map (fun n => (n : ℤ))
    else none
  | Cell.num _ => some 1970
  | Cell.dtime y => y
  | _ => none

/-- Year cell read off a converted datetime cell, as dt.year produces it
(missing on NaT). -/
def yearCellOf : Cell → Cell
  | Cell.dtime (some y) => Cell.num y
  | _ => Cell.na

/-- Assign a column by name, overwriting it when present and appending it at
the end otherwise, as pandas column assignment does. -/
def setOrAppendCol (df : DF) (c : String) (f : List Cell → Cell) : DF :=
  match idxOf? c df.cols with
  | some i => ⟨df.cols, df.rows.map (fun r => r.set i (f r))⟩
  | none => ⟨df.cols ++ [c], df.rows.map (fun r => r ++ [f r])⟩

/-- Parse a decimal string (optional sign, optional fractional part) as a
rational, the convertible cases of pandas.to_numeric; scientific notation
is not modelled. -/
def parseDecimal? (s : String) : Option ℚ :=
  match s.data with
  | [] => none
  | cs =>
    let signed := cs.headD ' ' = '-'
    let cs1 := if signed then cs.tail else cs
    let ip := cs1.takeWhile (fun c => !(c = '.'))
    let rest := cs1.dropWhile (fun c => !(c = '.'))
    let core : Option ℚ :=
      match rest with
      | [] => (parseNatDigits? ip).map (fun n => (n : ℚ))
      | _ :: fp =>
        if fp.isEmpty then (parseNatDigits? ip).map (fun n => (n : ℚ))
        else if ip.isEmpty then
          (parseNatDigits? fp).map (fun m => (m : ℚ) / ((10 : ℚ) ^ fp.length))
        else
          match parseNatDigits? ip, parseNatDigits? fp with
          | some n, some m => some ((n : ℚ) + (m : ℚ) / ((10 : ℚ) ^ fp.length))
          | _, _ => none
    if signed then core.map (fun q => -q) else core

/-- Model of pandas.to_numeric with errors coerce on one cell: numbers stay,
decimal strings parse, anything unconvertible becomes missing. -/
def toNumericCell : Cell → Cell
  | Cell.num q => Cell.num q
  | Cell.str s =>
    match parseDecimal? s with
    | some q => Cell.num q
    | none => Cell.na
  | _ => Cell.na

/-- Flatten the key-value pairs of one record the way json_normalize does,
joining nested mapping keys with a dot; non-mapping values stay as they
are. -/
def flattenKVs : KVList → List (String × Cell)
  | KVList.nil => []
  | KVList.cons k (Cell.cdict kvs) rest =>
    (flattenKVs kvs).map (fun p => (k ++ sDot ++ p.1, p.2)) ++ flattenKVs rest
  | KVList.cons k v rest => (k, v) :: flattenKVs rest

/-- Key-value pairs of a record cell; none on a non-mapping cell, on which
json_normalize raises. -/
def recordKVs? : Cell → Option (List (String × Cell))
  | Cell.cdict kvs => some (flattenKVs kvs)
  | _ => none

/-- First value bound to a key in a flattened record, missing when the key
is absent. -/
def lookupKV (c : String) : List (String × Cell) → Cell
  | [] => Cell.na
  | (k, v) :: rest => if k = c then v else lookupKV c rest

/-- Model of pd.json_normalize over the exploded data cells: every cell must
be a mapping (else the call raises and the stage returns the empty table);
the result has one column per distinct flattened key and one row per
record, with absent keys missing. -/
def normalizeRecords (cells : List Cell) : Option (List String × List (List Cell)) :=
  match cells.mapM recordKVs? with
  | none => none
  | some kvss =>
    let ncols := (kvss.flatMap (fun kvs => kvs.map Prod.fst)).dedup
    some (ncols, kvss.map (fun kvs => ncols.map (fun c => lookupKV c kvs)))

/-- Numeric dtype test for the column at position i: every cell missing or
numeric, which is when select_dtypes counts the column as numeric. -/
def isNumericColAt (df : DF) (i : ℕ) : Bool :=
  df.rows.all (fun r => isNaLike (r.getD i Cell.na) || isNumCell (r.getD i Cell.na))

/-- Numeric dtype test by column name. -/
def isNumericColN (df : DF) (c : String) : Bool :=
  match idxOf? c df.cols with
  | some i => isNumericColAt df i
  | none => false

/-- The numeric columns other than Year, the aggregation targets of the two
transform stages. -/
def numericColsExYear (df : DF) : List String :=
  df.cols.dedup.filter (fun c => !(c == sYear) && isNumericColN df c)

/-- Mean cell of column c over a group of rows: the mean of the numeric
values, missing when there are none. -/
def meanCellOf (df : DF) (rows : List (List Cell)) (c : String) : Cell :=
  match idxOf? c df.cols with
  | some i =>
    match meanOf (numsOf (rows.map (fun r => r.getD i Cell.na))) with
    | some q => Cell.num q
    | none => Cell.na
  | none => Cell.na

/-- Model of groupby on two key columns followed by mean of the given
columns and reset_index: rows with a missing key are dropped, each distinct
key pair yields one output row with the group means. none models the raised
KeyError when a key column is absent and the reset_index failure when a key
also appears among the aggregated columns. Key order of the output is not
tracked (pandas sorts group keys). -/
def groupbyMean2 (k1 k2 : String) (aggCols : List String) (df : DF) : Option DF :=
  match idxOf? k1 df.cols, idxOf? k2 df.cols with
  | some i1, some i2 =>
    if k1 ∈ aggCols ∨ k2 ∈ aggCols then none
    else
      let kept := df.rows.filter
        (fun r => !(isNaLike (r.getD i1 Cell.na)) && !(isNaLike (r.getD i2 Cell.na)))
      let keys := (kept.map (fun r => (r.getD i1 Cell.na, r.getD i2 Cell.na))).dedup
      some ⟨k1 :: k2 :: aggCols,
        keys.map (fun k =>
          k.1 :: k.2 :: aggCols.map (fun c =>
            meanCellOf df (kept.filter
              (fun r => (r.getD i1 Cell.na, r.getD i2 Cell.na) == k)) c))⟩
  | _, _ => none

/-- transform_health_data of data_processing.py: require a data column;
explode it (one row per record, an empty list leaving one row with a
missing cell); json_normalize the records (any non-mapping record raises,
returning the empty table); concatenate the exploded frame without its data
column with the normalized columns; require a date column; convert it to
datetimes and derive Year; then group by country_code and Year taking the
mean of the numeric columns. Every error path returns the empty table. -/
def transform_health_data (df : DF) : DF :=
  match idxOf? sData df.cols with
  | none => DF.emptyDF
  | some di =>
    let exploded := df.rows.flatMap (fun r =>
      match r.getD di Cell.na with
      | Cell.clist CellList.nil => [r.set di Cell.na]
      | Cell.clist xs => (CellList.toList xs).map (fun x => r.set di x)
      | _ => [r])
    match normalizeRecords (exploded.map (fun r => r.getD di Cell.na)) with
    | none => DF.emptyDF
    | some (ncols, nrows) =>
      let baseIdxs := (List.range df.cols.length).filter
        (fun i => !(df.cols.getD i sEmpty == sData))
      let dfc : DF := ⟨baseIdxs.map (fun i => df.cols.getD i sEmpty) ++ ncols,
        (exploded.zip nrows).map (fun p => selectIdxs baseIdxs p.1 ++ p.2)⟩
      match idxOf? sDate dfc.cols with
      | none => DF.emptyDF
      | some dateIdx =>
        let dfd : DF := ⟨dfc.cols, dfc.rows.map (fun r =>
          r.set dateIdx (Cell.dtime (toDatetimeYear? (r.getD dateIdx Cell.na))))⟩
        let dfy := setOrAppendCol dfd sYear (fun r => yearCellOf (r.getD dateIdx Cell.na))
        match groupbyMean2 sCountry sYear (numericColsExYear dfy) dfy with
        | some out => out
        | none => DF.emptyDF

/-- transform_economic_data of data_processing.py: keep an existing Year
column or derive it from a date column (no date: empty table); require a
value column (else empty table) and coerce it to numeric; then group by
series_id and Year taking the mean of the numeric columns. -/
def transform_economic_data (df : DF) : DF :=
  let df1? : Option DF :=
    if sYear ∈ df.cols then some df
    else
      match idxOf? sDate df.cols with
      | some dateIdx =>
        let dfd : DF := ⟨df.cols, df.rows.map (fun r =>
          r.set dateIdx (Cell.dtime (toDatetimeYear? (r.getD dateIdx Cell.na))))⟩
        some (setOrAppendCol dfd sYear (fun r => yearCellOf (r.getD dateIdx Cell.na)))
      | none => none
  match df1? with
  | none => DF.emptyDF
  | some df1 =>
    match idxOf? sValue df1.cols with
    | none => DF.emptyDF
    | some vi =>
      let df2 : DF := ⟨df1.cols, df1.rows.map (fun r =>
        r.set vi (toNumericCell (r.getD vi Cell.na)))⟩
      match groupbyMean2 sSeries sYear (numericColsExYear df2) df2 with
      | some out => out
      | none => DF.emptyDF

/-- The fixed feature allow-list of train_economic_model. -/
def featureAllowList : List String :=
  [r"new_cases", r"new_deaths", r"total_cases", r"total_deaths",
   r"new_cases_per_million", r"new_deaths_per_million",
   r"reproduction_rate", r"icu_patients", r"hosp_patients",
   r"population_density", r"median_age", r"aged_65_older",
   r"aged_70_older", r"gdp_per_capita", r"cardiovasc_death_rate",
   r"diabetes_prevalence", r"handwashing_facilities",
   r"hospital_beds_per_thousand", r"life_expectancy",
   r"human_development_index", r"extreme_poverty",
   r"female_smokers", r"male_smokers"]

/-- Row pairs of the inner merge of the training tables on iso_code and
Year (missing keys matching, as in pandas). -/
def mergedKeyPairs (A B : DF) : List (List Cell × List Cell) :=
  A.rows.flatMap (fun a =>
    (B.rows.filter (fun b =>
      colVal A.cols sIso a == colVal B.cols sIso b
        && colVal A.cols sYear a == colVal B.cols sYear b)).map (fun b => (a, b)))

/-- Value of column c in a merged training row: keys from the left, a
column of one side from that side, a column of both sides only under
suffixes (unsuffixed name absent). -/
def mergedValK (A B : DF) (c : String) (a b : List Cell) : Cell :=
  if c = sIso ∨ c = sYear then colVal A.cols c a
  else if c ∈ A.cols ∧ ¬ c ∈ B.cols then colVal A.cols c a
  else if c ∈ B.cols ∧ ¬ c ∈ A.cols then colVal B.cols c b
  else Cell.na

/-- Presence of label c in the merged training frame. -/
def mergedHasK (A B : DF) (c : String) : Bool :=
  c == sIso || c == sYear
    || (decide (c ∈ A.cols) && !(decide (c ∈ B.cols)))
    || (decide (c ∈ B.cols) && !(decide (c ∈ A.cols)))

/-- Column-mean fill over a list of cells, the fillna step of training. -/
def fillColMean (cs : List Cell) : List Cell :=
  cs.map (fillMeanCell (meanOf (numsOf cs)))

/-- Result of train_economic_model: the optional (rmse, r2) pair, and
whether a model artifact was persisted. -/
structure TrainResult where
  rmse_r2 : Option (ℚ × ℚ)
  persisted : Bool

deriving instance DecidableEq for TrainResult

/-- The failure signal (None, None) with nothing persisted. -/
def trainFail : TrainResult := ⟨none, false⟩

/-- train_economic_model of machine_learning.py, parameterized by fitEval,
the model fit, prediction and metric computation of scikit-learn applied to
the filled feature matrix, filled target and test-partition size (its none
models an exception there). The steps before it are explicit: merge on
iso_code and Year (missing keys raise), select the present allow-list
features, take the target column (absent label raises), fill missing values
with column means, reject non-numeric or still-missing matrices as the fit
would, and split with test size the ceiling of a fifth (the split raises
when either partition is empty, in particular on one merged row). The
artifact is persisted exactly when fitEval returns metrics, since
joblib.dump runs after evaluation and before the return. -/
def train_economic_model
    (fitEval : List (List ℚ) → List ℚ → ℕ → Option (ℚ × ℚ))
    (health econ : DF) (target : String) : TrainResult :=
  if ¬ (sIso ∈ health.cols ∧ sYear ∈ health.cols ∧ sIso ∈ econ.cols ∧ sYear ∈ econ.cols) then
    trainFail
  else
    let m := mergedKeyPairs health econ
    let feats := featureAllowList.filter (fun c => mergedHasK health econ c)
    if ¬ (mergedHasK health econ target = true) then trainFail
    else
      let xcolsRaw := feats.map (fun c => m.map (fun p => mergedValK health econ c p.1 p.2))
      let ycolRaw := m.map (fun p => mergedValK health econ target p.1 p.2)
      if ¬ ((xcolsRaw.all numericColOk && numericColOk ycolRaw) = true) then trainFail
      else
        let xcols := xcolsRaw.map fillColMean
        let ycol := fillColMean ycolRaw
        if xcols.any (fun cs => cs.any (fun v => isNaLike v))
            || ycol.any (fun v => isNaLike v) then trainFail
        else
          let n := m.length
          let nTest := (n + 4) / 5
          if nTest = 0 ∨ n - nTest = 0 then trainFail
          else
            match fitEval (xcols.map numsOf) (numsOf ycol) nTest with
            | none => trainFail
            | some rr => ⟨some rr, true⟩

theorem aux_getD_map {α β : Type} (f : α → β) (d : β) (d' : α) :
    ∀ (l : List α) (p : ℕ), p < l.length → (l.map f).getD p d = f (l.getD p d')
  | x :: xs, 0, _ => rfl
  | x :: xs, p + 1, h => by
    simpa [List.getD_cons_succ] using aux_getD_map f d d' xs p (by simpa using h)

theorem aux_getD_set_self {α : Type} (d : α) :
    ∀ (l : List α) (i : ℕ) (v : α), i < l.length → (l.set i v).getD i d = v
  | x :: xs, 0, v, _ => rfl
  | x :: xs, i + 1, v, h => by
    simpa [List.set, List.getD_cons_succ] using aux_getD_set_self d xs i v (by simpa using h)

theorem aux_getD_set_ne {α : Type} (d : α) :
    ∀ (l : List α) (i j : ℕ) (v : α), i ≠ j → (l.set i v).getD j d = l.getD j d
  | [], _, _, _, _ => by simp [List.set]
  | x :: xs, 0, 0, v, h => absurd rfl h
  | x :: xs, 0, j + 1, v, _ => by simp [List.set, List.getD_cons_succ]
  | x :: xs, i + 1, 0, v, _ => by simp [List.set]
  | x :: xs, i + 1, j + 1, v, h => by
    have : i ≠ j := fun he => h (by rw [he])
    simpa [List.set, List.getD_cons_succ] using aux_getD_set_ne d xs i j v this

theorem aux_getD_append_lt {α : Type} (d : α) :
    ∀ (l t : List α) (j : ℕ), j < l.length → (l ++ t).getD j d = l.getD j d
  | x :: xs, t, 0, _ => rfl
  | x :: xs, t, j + 1, h => by
    simpa [List.getD_cons_succ] using aux_getD_append_lt d xs t j (by simpa using h)

theorem aux_getD_append_len {α : Type} (d : α) (x : α) :
    ∀ (l : List α), (l ++ [x]).getD l.length d = x
  | [] => rfl
  | y :: ys => by simp [List.getD_cons_succ, aux_getD_append_len d x ys]

theorem idxOf?_some_lt {c : String} :
    ∀ {l : List String} {j : ℕ}, idxOf? c l = some j → j < l.length := by
  intro l
  induction l with
  | nil => intro j h; simp [idxOf?] at h
  | cons x xs ih =>
    intro j h
    by_cases hx : x = c
    · simp [idxOf?, hx] at h
      simp [← h]
    · simp [idxOf?, hx] at h
      obtain ⟨j', hj', he⟩ := h
      have := ih hj'
      simp [← he]
      omega

theorem idxOf?_getD {c : String} :
    ∀ {l : List String} {j : ℕ}, idxOf? c l = some j → l.getD j sEmpty = c := by
  intro l
  induction l with
  | nil => intro j h; simp [idxOf?] at h
  | cons x xs ih =>
    intro j h
    by_cases hx : x = c
    · simp [idxOf?, hx] at h
      simp [← h, hx]
    · simp [idxOf?, hx] at h
      obtain ⟨j', hj', he⟩ := h
      simpa [← he, List.getD_cons_succ] using ih hj'

theorem idxOf?_none_iff {c : String} :
    ∀ {l : List String}, idxOf? c l = none ↔ c ∉ l := by
  intro l
  induction l with
  | nil => simp [idxOf?]
  | cons x xs ih =>
    by_cases hx : x = c
    · simp [idxOf?, hx]
    · simp [idxOf?, hx, ih, Ne.symm hx]

theorem aux_getD_mem {α : Type} (d : α) :
    ∀ (l : List α) (i : ℕ), i < l.length → l.getD i d ∈ l
  | x :: xs, 0, _ => List.mem_cons_self _ _
  | x :: xs, i + 1, h => by
    have := aux_getD_mem d xs i (by simpa using h)
    simpa [List.getD_cons_succ] using List.mem_cons_of_mem x this

theorem idxOf?_of_nodup {c : String} :
    ∀ {l : List String}, l.Nodup → ∀ {i : ℕ}, i < l.length → l.getD i sEmpty = c →
      idxOf? c l = some i := by
  intro l
  induction l with
  | nil => intro _ i hi; simp at hi
  | cons x xs ih =>
    intro hnd i hi he
    match i with
    | 0 =>
      simp at he
      simp [idxOf?, he]
    | i + 1 =>
      have hxs : xs.Nodup := (List.nodup_cons.mp hnd).2
      have hxmem : x ∉ xs := (List.nodup_cons.mp hnd).1
      have hi' : i < xs.length := by simpa using hi
      have he' : xs.getD i sEmpty = c := by simpa [List.getD_cons_succ] using he
      have hx : ¬ x = c := by
        intro hxc
        apply hxmem
        rw [hxc, ← he']
        exact aux_getD_mem sEmpty xs i hi'
      simp [idxOf?, hx, ih hxs hi' he']

theorem idxOf?_append_left {c : String} {l1 : List String} (l2 : List String) {j : ℕ}
    (h : idxOf? c l1 = some j) : idxOf? c (l1 ++ l2) = some j := by
  induction l1 generalizing j with
  | nil => simp [idxOf?] at h
  | cons x xs ih =>
    by_cases hx : x = c
    · simp [idxOf?, hx] at h
      simp [idxOf?, hx, ← h]
    · simp [idxOf?, hx] at h
      obtain ⟨j', hj', he⟩ := h
      simp [idxOf?, hx, ih hj', ← he]

theorem idxOf?_append_of_not_mem {c : String} {l1 : List String} (l2 : List String)
    (h : c ∉ l1) : idxOf? c (l1 ++ l2) = (idxOf? c l2).map (· + l1.length) := by
  induction l1 with
  | nil => simp
  | cons x xs ih =>
    have hx : ¬ x = c := fun he => h (by simp [he])
    have hxs : c ∉ xs := fun hm => h (List.mem_cons_of_mem _ hm)
    simp [idxOf?, hx, ih hxs, Option.map_map]

theorem aux_mem_dedupByKey (key : List Cell → List Cell) :
    ∀ (l : List (List Cell)) (seen : List (List Cell)) (r : List Cell),
      r ∈ dedupByKey key l seen → r ∈ l := by
  intro l
  induction l with
  | nil => intro seen r h; simp [dedupByKey] at h
  | cons x xs ih =>
    intro seen r h
    by_cases hk : key x ∈ seen
    · simp [dedupByKey, hk] at h
      exact List.mem_cons_of_mem _ (ih _ _ h)
    · simp [dedupByKey, hk] at h
      rcases h with h | h
      · simp [h]
      · exact List.mem_cons_of_mem _ (ih _ _ h)

theorem aux_lookup_map_unique (name : ℕ → String) (c : String) (j : ℕ) :
    ∀ (idxs : List ℕ), j ∈ idxs → name j = c →
      (∀ i ∈ idxs, name i = c → i = j) →
      ∃ p, p < idxs.length ∧ idxOf? c (idxs.map name) = some p ∧ idxs.getD p 0 = j := by
  intro idxs
  induction idxs with
  | nil => intro h; simp at h
  | cons i0 rest ih =>
    intro hj hnc huniq
    by_cases h0 : name i0 = c
    · have : i0 = j := huniq i0 (List.mem_cons_self _ _) h0
      refine ⟨0, by simp, ?_, by simp [this]⟩
      simp [idxOf?, h0]
    · have hjr : j ∈ rest := by
        rcases List.mem_cons.mp hj with h | h
        · exact absurd (h ▸ hnc) h0
        · exact h
      obtain ⟨p, hp, hfind, hget⟩ :=
        ih hjr hnc (fun i hi hic => huniq i (List.mem_cons_of_mem _ hi) hic)
      refine ⟨p + 1, by simpa using hp, ?_, by simpa [List.getD_cons_succ] using hget⟩
      simp [idxOf?, h0, hfind]

theorem colVal_select_eq {df : DF} {idxs : List ℕ} {c : String} {j : ℕ}
    (hj : idxOf? c df.cols = some j) (hjm : j ∈ idxs)
    (huniq : ∀ i ∈ idxs, df.cols.getD i sEmpty = c → i = j) (r : List Cell) :
    colVal (selectColsByIdxs idxs df).cols c (selectIdxs idxs r) = r.getD j Cell.na := by
  obtain ⟨p, hp, hfind, hget⟩ :=
    aux_lookup_map_unique (fun i => df.cols.getD i sEmpty) c j idxs hjm (idxOf?_getD hj) huniq
  show colVal (idxs.map (fun i => df.cols.getD i sEmpty)) c (idxs.map (fun i => r.getD i Cell.na)) = _
  simp only [colVal, hfind]
  rw [aux_getD_map (fun i => r.getD i Cell.na) Cell.na 0 idxs p hp, hget]

theorem colVal_select_absent {df : DF} {idxs : List ℕ} {c : String}
    (hb : ∀ i ∈ idxs, i < df.cols.length) (hc : c ∉ df.cols) (r : List Cell) :
    colVal (selectColsByIdxs idxs df).cols c r = Cell.na := by
  have : c ∉ idxs.map (fun i => df.cols.getD i sEmpty) := by
    intro hm
    obtain ⟨i, hi, he⟩ := List.mem_map.mp hm
    exact hc (he ▸ aux_getD_mem sEmpty df.cols i (hb i hi))
  show colVal (idxs.map (fun i => df.cols.getD i sEmpty)) c r = Cell.na
  rw [colVal, idxOf?_none_iff.mpr this]

theorem mem_select_cols {df : DF} {idxs : List ℕ} {c : String} :
    c ∈ (selectColsByIdxs idxs df).cols ↔ ∃ i ∈ idxs, df.cols.getD i sEmpty = c := by
  show c ∈ idxs.map (fun i => df.cols.getD i sEmpty) ↔ _
  simp [List.mem_map]

theorem dedupIdxs_bound {cols : List String} : ∀ i ∈ dedupIdxs cols, i < cols.length := by
  intro i hi
  have := List.mem_filter.mp hi
  simpa using this.1

theorem dedupIdxs_cond {cols : List String} {i : ℕ} (hi : i ∈ dedupIdxs cols) :
    idxOf? (cols.getD i sEmpty) cols = some i := by
  have := (List.mem_filter.mp hi).2
  simpa using this

theorem dedupIdxs_mem {cols : List String} {c : String} {j : ℕ}
    (hj : idxOf? c cols = some j) : j ∈ dedupIdxs cols := by
  rw [dedupIdxs]
  refine List.mem_filter.mpr ⟨by simpa using idxOf?_some_lt hj, ?_⟩
  have hg : cols.getD j sEmpty = c := idxOf?_getD hj
  rw [hg, hj]
  simp

theorem dedupIdxs_uniq {cols : List String} {c : String} {j : ℕ}
    (hj : idxOf? c cols = some j) :
    ∀ i ∈ dedupIdxs cols, cols.getD i sEmpty = c → i = j := by
  intro i hi he
  have := dedupIdxs_cond hi
  rw [he, hj] at this
  exact (Option.some.inj this).symm

theorem dropDupCols_colVal {df : DF} {c : String} {j : ℕ}
    (hj : idxOf? c df.cols = some j) (r : List Cell) :
    colVal (dropDupCols df).cols c (selectIdxs (dedupIdxs df.cols) r) = r.getD j Cell.na :=
  colVal_select_eq hj (dedupIdxs_mem hj) (dedupIdxs_uniq hj) r

theorem dropDupCols_nodup (df : DF) : (dropDupCols df).cols.Nodup := by
  show (List.map _ _).Nodup
  refine List.Nodup.map_on ?_ ((List.nodup_range _).filter _)
  intro i1 h1 i2 h2 he
  have c1 := dedupIdxs_cond h1
  have c2 := dedupIdxs_cond h2
  rw [he] at c1
  rw [c1] at c2
  exact Option.some.inj c2

theorem dropDupCols_colVal_all (df : DF) (c : String) (r : List Cell) :
    colVal (dropDupCols df).cols c (selectIdxs (dedupIdxs df.cols) r) = colVal df.cols c r := by
  cases hj : idxOf? c df.cols with
  | some j =>
    rw [dropDupCols_colVal hj r]
    simp [colVal, hj]
  | none =>
    have h : colVal (selectColsByIdxs (dedupIdxs df.cols) df).cols c
        (selectIdxs (dedupIdxs df.cols) r) = Cell.na :=
      colVal_select_absent dedupIdxs_bound (idxOf?_none_iff.mp hj) _
    show colVal (selectColsByIdxs (dedupIdxs df.cols) df).cols c
      (selectIdxs (dedupIdxs df.cols) r) = colVal df.cols c r
    rw [h]
    simp [colVal, hj]

theorem dropDupCols_mem {df : DF} {c : String} :
    c ∈ (dropDupCols df).cols ↔ c ∈ df.cols := by
  constructor
  · intro h
    obtain ⟨i, hi, he⟩ := mem_select_cols.mp h
    exact he ▸ aux_getD_mem sEmpty df.cols i (dedupIdxs_bound i hi)
  · intro h
    cases hj : idxOf? c df.cols with
    | none => exact absurd h (idxOf?_none_iff.mp hj)
    | some j =>
      exact mem_select_cols.mpr ⟨j, dedupIdxs_mem hj, idxOf?_getD hj⟩

theorem selectColsByIdxs_WF (idxs : List ℕ) (df : DF) : (selectColsByIdxs idxs df).WF := by
  intro r hr
  obtain ⟨r0, _, he⟩ := List.mem_map.mp hr
  simp [← he, selectIdxs, selectColsByIdxs]

theorem dropEmptyRows_WF {df : DF} (h : df.WF) : (dropEmptyRows df).WF := by
  intro r hr
  exact h r (List.mem_filter.mp hr).1

theorem dropEmptyRows_sub {df : DF} {r : List Cell} (hr : r ∈ (dropEmptyRows df).rows) :
    r ∈ df.rows := (List.mem_filter.mp hr).1

theorem ensureDataCol_mem_data (df : DF) : sData ∈ (ensureDataCol df).cols := by
  rw [ensureDataCol]
  cases hj : idxOf? sData df.cols with
  | some j =>
    exact idxOf?_getD hj ▸ aux_getD_mem sEmpty df.cols j (idxOf?_some_lt hj)
  | none => simp

theorem ensureDataCol_rows_map (df : DF) :
    ∃ f, (ensureDataCol df).rows = df.rows.map f ∧
      (∀ r, r.length = df.cols.length → (f r).length = (ensureDataCol df).cols.length) ∧
      ∀ r, r.length = df.cols.length → ∀ c,
        colVal (ensureDataCol df).cols c (f r) =
          if c = sData then fixDataCell (colVal df.cols c r) else colVal df.cols c r := by
  cases hi : idxOf? sData df.cols with
  | some i =>
    refine ⟨fun r => r.set i (fixDataCell (r.getD i Cell.na)), by simp [ensureDataCol, hi], ?_, ?_⟩
    · intro r hr
      simp [ensureDataCol, hi, hr]
    · intro r hr c
      have hcols : (ensureDataCol df).cols = df.cols := by simp [ensureDataCol, hi]
      rw [hcols]
      by_cases hc : c = sData
      · subst hc
        have hilt : i < r.length := hr ▸ idxOf?_some_lt hi
        rw [if_pos rfl]
        simp only [colVal, hi]
        exact aux_getD_set_self Cell.na r i _ hilt
      · rw [if_neg hc]
        cases hj : idxOf? c df.cols with
        | none => simp [colVal, hj]
        | some j =>
          have hji : i ≠ j := by
            intro he
            apply hc
            have h1 := idxOf?_getD hi
            have h2 := idxOf?_getD hj
            rw [← he] at h2
            rw [← h1, h2]
          simp only [colVal, hj]
          rw [aux_getD_set_ne Cell.na r i j _ hji]
  | none =>
    refine ⟨fun r => r ++ [Cell.clist CellList.nil], by simp [ensureDataCol, hi], ?_, ?_⟩
    · intro r hr
      simp [ensureDataCol, hi, hr]
    · intro r hr c
      have hcols : (ensureDataCol df).cols = df.cols ++ [sData] := by simp [ensureDataCol, hi]
      rw [hcols]
      have hnm : sData ∉ df.cols := idxOf?_none_iff.mp hi
      by_cases hc : c = sData
      · subst hc
        have hfind : idxOf? sData (df.cols ++ [sData]) = some df.cols.length := by
          rw [idxOf?_append_of_not_mem [sData] hnm]
          simp [idxOf?]
        simp only [colVal, hfind, hi, if_pos rfl]
        rw [← hr, aux_getD_append_len]
        rfl
      · rw [if_neg hc]
        cases hj : idxOf? c df.cols with
        | none =>
          have : idxOf? c (df.cols ++ [sData]) = none := by
            rw [idxOf?_append_of_not_mem [sData] (idxOf?_none_iff.mp hj)]
            simp [idxOf?, Ne.symm hc]
          simp [colVal, this, hj]
        | some j =>
          have hlt : j < r.length := hr ▸ idxOf?_some_lt hj
          simp only [colVal, idxOf?_append_left [sData] hj, hj]
          rw [aux_getD_append_lt Cell.na r [Cell.clist CellList.nil] j hlt]

theorem ensureDataCol_nodup {df : DF} (h : df.cols.Nodup) : (ensureDataCol df).cols.Nodup := by
  cases hi : idxOf? sData df.cols with
  | some i => simpa [ensureDataCol, hi] using h
  | none =>
    have hnm : sData ∉ df.cols := idxOf?_none_iff.mp hi
    simp [ensureDataCol, hi, List.nodup_append, h, hnm]

theorem complexKeepIdxs_bound {df : DF} : ∀ i ∈ complexKeepIdxs df, i < df.cols.length := by
  intro i hi
  have := List.mem_filter.mp hi
  simpa using this.1

theorem dropComplexCols_colVal {df : DF} (hnd : df.cols.Nodup) {c : String}
    (hc : c ∈ (dropComplexCols df).cols) (r : List Cell) :
    colVal (dropComplexCols df).cols c (selectIdxs (complexKeepIdxs df) r) =
      colVal df.cols c r := by
  obtain ⟨i, hi, he⟩ := mem_select_cols.mp hc
  have hib : i < df.cols.length := complexKeepIdxs_bound i hi
  have hidx : idxOf? c df.cols = some i := idxOf?_of_nodup hnd hib he
  have huniq : ∀ i2 ∈ complexKeepIdxs df, df.cols.getD i2 sEmpty = c → i2 = i := by
    intro i2 hi2 he2
    have h2 := idxOf?_of_nodup hnd (complexKeepIdxs_bound i2 hi2) he2
    rw [hidx] at h2
    exact (Option.some.inj h2).symm
  show colVal (selectColsByIdxs (complexKeepIdxs df) df).cols c
    (selectIdxs (complexKeepIdxs df) r) = colVal df.cols c r
  rw [colVal_select_eq hidx hi huniq r]
  simp [colVal, hidx]

theorem dropComplexCols_mem_data {df : DF} (h : sData ∈ df.cols) :
    sData ∈ (dropComplexCols df).cols := by
  cases hj : idxOf? sData df.cols with
  | none => exact absurd h (idxOf?_none_iff.mp hj)
  | some j =>
    refine mem_select_cols.mpr ⟨j, ?_, idxOf?_getD hj⟩
    refine List.mem_filter.mpr ⟨by simpa using idxOf?_some_lt hj, ?_⟩
    show (df.cols.getD j sEmpty == sData
      || !(df.rows.any (fun r => (r.getD j Cell.na).isComplex))) = true
    rw [idxOf?_getD hj]
    simp

theorem dropComplexCols_noComplex {df : DF} (hnd : df.cols.Nodup) {c : String}
    (hc : c ∈ (dropComplexCols df).cols) (hcd : c ≠ sData) :
    ∀ r ∈ df.rows, (colVal df.cols c r).isComplex = false := by
  obtain ⟨i, hi, he⟩ := mem_select_cols.mp hc
  have hib : i < df.cols.length := complexKeepIdxs_bound i hi
  have hidx : idxOf? c df.cols = some i := idxOf?_of_nodup hnd hib he
  have hcond : (df.cols.getD i sEmpty == sData
      || !(df.rows.any (fun r => (r.getD i Cell.na).isComplex))) = true :=
    (List.mem_filter.mp hi).2
  rw [he] at hcond
  have hne : (c == sData) = false := by simpa using hcd
  rw [hne, Bool.false_or] at hcond
  have hany : df.rows.any (fun r => (r.getD i Cell.na).isComplex) = false := by
    simpa using hcond
  intro r hr
  have hr2 := List.any_eq_false.mp hany r hr
  simp only [colVal, hidx]
  simpa using hr2

theorem dropDupRows_cols (df : DF) : (dropDupRows df).cols = df.cols := by
  rw [dropDupRows]
  split <;> rfl

theorem dropDupRows_sub {df : DF} {r : List Cell} (hr : r ∈ (dropDupRows df).rows) :
    r ∈ df.rows := by
  rw [dropDupRows] at hr
  split at hr
  · exact aux_mem_dedupByKey _ _ _ _ hr
  · exact aux_mem_dedupByKey _ _ _ _ hr

theorem clean_trace (df : DF) :
    ∀ r' ∈ (clean_data df).rows, ∃ r0 ∈ df.rows, ∀ c ∈ (clean_data df).cols,
      colVal (clean_data df).cols c r' =
        if c = sData then fixDataCell (colVal df.cols c r0) else colVal df.cols c r0 := by
  intro r' hr'
  have hnd1 : (dropDupCols df).cols.Nodup := dropDupCols_nodup df
  have hnd3 : (ensureDataCol (dropEmptyRows (dropDupCols df))).cols.Nodup :=
    ensureDataCol_nodup hnd1
  have hwf2 : (dropEmptyRows (dropDupCols df)).WF :=
    dropEmptyRows_WF (selectColsByIdxs_WF _ df)
  obtain ⟨f, hfrows, _, hfval⟩ := ensureDataCol_rows_map (dropEmptyRows (dropDupCols df))
  have hr4 : r' ∈ (dropComplexCols (ensureDataCol (dropEmptyRows (dropDupCols df)))).rows :=
    dropDupRows_sub hr'
  obtain ⟨r3, hr3, hr3eq⟩ := List.mem_map.mp hr4
  have hr3' : r3 ∈ (ensureDataCol (dropEmptyRows (dropDupCols df))).rows := hr3
  rw [hfrows] at hr3'
  obtain ⟨r2, hr2, hr2eq⟩ := List.mem_map.mp hr3'
  have hr2' : r2 ∈ (dropDupCols df).rows := dropEmptyRows_sub hr2
  obtain ⟨r0, hr0, hr0eq⟩ := List.mem_map.mp hr2'
  refine ⟨r0, hr0, ?_⟩
  intro c hc
  have hc4 : c ∈ (dropComplexCols (ensureDataCol (dropEmptyRows (dropDupCols df)))).cols := by
    rw [← dropDupRows_cols]
    exact hc
  have hcv_out : colVal (clean_data df).cols c r' =
      colVal (dropComplexCols (ensureDataCol (dropEmptyRows (dropDupCols df)))).cols c r' := by
    rw [clean_data, dropDupRows_cols]
  rw [hcv_out, ← hr3eq, dropComplexCols_colVal hnd3 hc4 r3, ← hr2eq,
    hfval r2 (hwf2 r2 hr2) c]
  have h2 : colVal (dropEmptyRows (dropDupCols df)).cols c r2 = colVal df.cols c r0 := by
    show colVal (dropDupCols df).cols c r2 = colVal df.cols c r0
    rw [← hr0eq]
    exact dropDupCols_colVal_all df c r0
  rw [h2]

def sNewCases : String := "new_cases"

/-- Concrete counterexample table for the imputation claim: a data column
and an allow-listed indicator column holding 1, missing, 3. -/
def T6df : DF :=
  ⟨[sData, sNewCases],
   [[Cell.clist CellList.nil, Cell.num 1], [Cell.clist CellList.nil, Cell.na], [Cell.clist CellList.nil, Cell.num 3]]⟩

/-- C6 counterexample: clean_data leaves the missing new_cases value
missing; mean imputation would have produced 2. The allow-list membership
of new_cases is recorded by the last conjunct. -/
theorem C6_counterexample :
    (clean_data T6df).rows.map (colVal (clean_data T6df).cols sNewCases)
        = [Cell.num 1, Cell.na, Cell.num 3] ∧
      Cell.na ≠ Cell.num 2 ∧ sNewCases ∈ featureAllowList := by decide

/-- C6 amended: the cleaning stage performs no imputation at all: every cell
of every retained non-data column of the output equals the corresponding
cell of some input row, so missing numeric values pass through unchanged
(mean imputation happens later, in normalize_data and in training). -/
theorem C6_amended_clean_no_imputation (df : DF) :
    ∀ r' ∈ (clean_data df).rows, ∃ r0 ∈ df.rows, ∀ c ∈ (clean_data df).cols,
      c ≠ sData → colVal (clean_data df).cols c r' = colVal df.cols c r0 := by
  intro r' hr'
  obtain ⟨r0, hr0, hcv⟩ := clean_trace df r' hr'
  refine ⟨r0, hr0, ?_⟩
  intro c hc hcd
  rw [hcv c hc, if_neg hcd]

/-- Witness for the amended C6 at the counterexample table. -/
theorem C6_amended_witness :
    ∃ r0 ∈ T6df.rows, ∀ c ∈ (clean_data T6df).cols,
      c ≠ sData → colVal (clean_data T6df).cols c [Cell.clist CellList.nil, Cell.num 1]
        = colVal T6df.cols c r0 :=
  C6_amended_clean_no_imputation T6df [Cell.clist CellList.nil, Cell.num 1] (by decide)

def sX : String := "x"

/-- Concrete counterexample table for the complex-column claim: the column
named data holds a nested list value. -/
def T7df : DF := ⟨[sData, sX], [[Cell.clist (cellsOf [Cell.num 1]), Cell.num 2]]⟩

/-- C7 counterexample: a column containing nested list values (the one named
data) is present in the cleaned output, with its list intact, refuting the
claim that every such column is absent. -/
theorem C7_counterexample :
    sData ∈ (clean_data T7df).cols ∧
      colVal (clean_data T7df).cols sData ((clean_data T7df).rows.getD 0 [])
        = Cell.clist (cellsOf [Cell.num 1]) := by decide

/-- C7 amended: every complex-valued column other than the designated data
column is dropped: the cleaned output keeps the data column, and every cell
of every other retained column is non-complex (no list, dict or set
value). -/
theorem clean_data_has_data (df : DF) : sData ∈ (clean_data df).cols := by
  rw [clean_data, dropDupRows_cols]
  exact dropComplexCols_mem_data
    (ensureDataCol_mem_data (dropEmptyRows (dropDupCols df)))

theorem C7_amended_complex_dropped_except_data (df : DF) :
    sData ∈ (clean_data df).cols ∧
    ∀ c ∈ (clean_data df).cols, c ≠ sData →
      ∀ r' ∈ (clean_data df).rows, (colVal (clean_data df).cols c r').isComplex = false := by
  have hnd1 : (dropDupCols df).cols.Nodup := dropDupCols_nodup df
  have hnd3 : (ensureDataCol (dropEmptyRows (dropDupCols df))).cols.Nodup :=
    ensureDataCol_nodup hnd1
  constructor
  · exact clean_data_has_data df
  · intro c hc hcd r' hr'
    have hc4 : c ∈ (dropComplexCols (ensureDataCol (dropEmptyRows (dropDupCols df)))).cols := by
      rw [← dropDupRows_cols]
      exact hc
    have hr4 : r' ∈ (dropComplexCols (ensureDataCol (dropEmptyRows (dropDupCols df)))).rows :=
      dropDupRows_sub hr'
    obtain ⟨r3, hr3, hr3eq⟩ := List.mem_map.mp hr4
    have hcv_out : colVal (clean_data df).cols c r' =
        colVal (dropComplexCols (ensureDataCol (dropEmptyRows (dropDupCols df)))).cols c r' := by
      rw [clean_data, dropDupRows_cols]
    rw [hcv_out, ← hr3eq, dropComplexCols_colVal hnd3 hc4 r3]
    exact dropComplexCols_noComplex hnd3 hc4 hcd r3 hr3

/-- Witness for the amended C7 at the counterexample table, on the retained
numeric column x. -/
theorem C7_amended_witness :
    sData ∈ (clean_data T7df).cols ∧
      (colVal (clean_data T7df).cols sX [Cell.clist (cellsOf [Cell.num 1]), Cell.num 2]).isComplex
        = false :=
  ⟨(C7_amended_complex_dropped_except_data T7df).1,
    (C7_amended_complex_dropped_except_data T7df).2 sX (by decide) (by decide)
      [Cell.clist (cellsOf [Cell.num 1]), Cell.num 2] (by decide)⟩

/-- C10: for every input table the cleaned output contains a data column
whose every cell is a list: each cell is the fixDataCell image of the data
cell of some input row, hence the original list when that cell was a list
and the empty list otherwise (in particular, when the input had no data
column at all, every cell is the empty list). -/
theorem C10_clean_data_ensures_data_lists (df : DF) :
    sData ∈ (clean_data df).cols ∧
    ∀ r' ∈ (clean_data df).rows, ∃ r0 ∈ df.rows,
      colVal (clean_data df).cols sData r' = fixDataCell (colVal df.cols sData r0) ∧
      ∃ xs, colVal (clean_data df).cols sData r' = Cell.clist xs ∧
        (colVal df.cols sData r0 = Cell.clist xs ∨ xs = CellList.nil) := by
  have hmem : sData ∈ (clean_data df).cols := clean_data_has_data df
  refine ⟨hmem, ?_⟩
  intro r' hr'
  obtain ⟨r0, hr0, hcv⟩ := clean_trace df r' hr'
  refine ⟨r0, hr0, ?_, ?_⟩
  · rw [hcv sData hmem, if_pos rfl]
  · rw [hcv sData hmem, if_pos rfl]
    cases hv : colVal df.cols sData r0 with
    | clist xs => exact ⟨xs, rfl, Or.inl rfl⟩
    | na => exact ⟨CellList.nil, rfl, Or.inr rfl⟩
    | num q => exact ⟨CellList.nil, rfl, Or.inr rfl⟩
    | str s => exact ⟨CellList.nil, rfl, Or.inr rfl⟩
    | cdict kvs => exact ⟨CellList.nil, rfl, Or.inr rfl⟩
    | cset xs => exact ⟨CellList.nil, rfl, Or.inr rfl⟩
    | dtime y => exact ⟨CellList.nil, rfl, Or.inr rfl⟩

/-- Witness for C10 at a table without a data column: the created data cell
is the empty list. -/
theorem C10_witness :
    sData ∈ (clean_data ⟨[sX], [[Cell.num 7]]⟩).cols ∧
      (∃ r0 ∈ (DF.mk [sX] [[Cell.num 7]]).rows,
        colVal (clean_data ⟨[sX], [[Cell.num 7]]⟩).cols sData [Cell.num 7, Cell.clist CellList.nil]
            = fixDataCell (colVal [sX] sData r0) ∧
          ∃ xs, colVal (clean_data ⟨[sX], [[Cell.num 7]]⟩).cols sData [Cell.num 7, Cell.clist CellList.nil]
              = Cell.clist xs ∧
            (colVal [sX] sData r0 = Cell.clist xs ∨ xs = CellList.nil)) :=
  ⟨(C10_clean_data_ensures_data_lists ⟨[sX], [[Cell.num 7]]⟩).1,
    (C10_clean_data_ensures_data_lists ⟨[sX], [[Cell.num 7]]⟩).2
      [Cell.num 7, Cell.clist CellList.nil] (by decide)⟩

theorem aux_foldl_min_le_init : ∀ (xs : List ℚ) (a : ℚ), xs.foldl min a ≤ a
  | [], a => le_refl a
  | x :: xs, a => le_trans (aux_foldl_min_le_init xs (min a x)) (min_le_left a x)

theorem aux_foldl_min_le : ∀ (xs : List ℚ) (a : ℚ), ∀ x ∈ xs, xs.foldl min a ≤ x
  | x :: xs, a, y, hy => by
    rcases List.mem_cons.mp hy with h | h
    · subst h
      exact le_trans (aux_foldl_min_le_init xs (min a y)) (min_le_right a y)
    · exact aux_foldl_min_le xs (min a x) y h

theorem aux_foldl_min_mem : ∀ (xs : List ℚ) (a : ℚ), xs.foldl min a ∈ a :: xs
  | [], a => List.mem_cons_self a []
  | x :: xs, a => by
    simp only [List.foldl_cons]
    rcases List.mem_cons.mp (aux_foldl_min_mem xs (min a x)) with h | h
    · rcases min_choice a x with hm | hm
      · rw [h, hm]
        exact List.mem_cons_self _ _
      · rw [h, hm]
        exact List.mem_cons_of_mem _ (List.mem_cons_self _ _)
    · exact List.mem_cons_of_mem _ (List.mem_cons_of_mem _ h)

theorem aux_foldl_max_init_le : ∀ (xs : List ℚ) (a : ℚ), a ≤ xs.foldl max a
  | [], a => le_refl a
  | x :: xs, a => le_trans (le_max_left a x) (aux_foldl_max_init_le xs (max a x))

theorem aux_foldl_le_max : ∀ (xs : List ℚ) (a : ℚ), ∀ x ∈ xs, x ≤ xs.foldl max a
  | x :: xs, a, y, hy => by
    rcases List.mem_cons.mp hy with h | h
    · subst h
      exact le_trans (le_max_right a y) (aux_foldl_max_init_le xs (max a y))
    · exact aux_foldl_le_max xs (max a x) y h

theorem aux_foldl_max_mem : ∀ (xs : List ℚ) (a : ℚ), xs.foldl max a ∈ a :: xs
  | [], a => List.mem_cons_self a []
  | x :: xs, a => by
    simp only [List.foldl_cons]
    rcases List.mem_cons.mp (aux_foldl_max_mem xs (max a x)) with h | h
    · rcases max_choice a x with hm | hm
      · rw [h, hm]
        exact List.mem_cons_self _ _
      · rw [h, hm]
        exact List.mem_cons_of_mem _ (List.mem_cons_self _ _)
    · exact List.mem_cons_of_mem _ (List.mem_cons_of_mem _ h)

theorem minOf_le {l : List ℚ} {m : ℚ} (h : minOf l = some m) : ∀ x ∈ l, m ≤ x := by
  cases l with
  | nil => simp [minOf] at h
  | cons a xs =>
    simp only [minOf, Option.some.injEq] at h
    intro x hx
    rcases List.mem_cons.mp hx with h1 | h1
    · rw [← h, h1]
      exact aux_foldl_min_le_init xs a
    · rw [← h]
      exact aux_foldl_min_le xs a x h1

theorem minOf_mem {l : List ℚ} {m : ℚ} (h : minOf l = some m) : m ∈ l := by
  cases l with
  | nil => simp [minOf] at h
  | cons a xs =>
    simp only [minOf, Option.some.injEq] at h
    rw [← h]
    exact aux_foldl_min_mem xs a

theorem maxOf_le {l : List ℚ} {m : ℚ} (h : maxOf l = some m) : ∀ x ∈ l, x ≤ m := by
  cases l with
  | nil => simp [maxOf] at h
  | cons a xs =>
    simp only [maxOf, Option.some.injEq] at h
    intro x hx
    rcases List.mem_cons.mp hx with h1 | h1
    · rw [← h, h1]
      exact aux_foldl_max_init_le xs a
    · rw [← h]
      exact aux_foldl_le_max xs a x h1

theorem maxOf_mem {l : List ℚ} {m : ℚ} (h : maxOf l = some m) : m ∈ l := by
  cases l with
  | nil => simp [maxOf] at h
  | cons a xs =>
    simp only [maxOf, Option.some.injEq] at h
    rw [← h]
    exact aux_foldl_max_mem xs a

theorem colCellsN_at {df : DF} {c : String} {i : ℕ} (hidx : idxOf? c df.cols = some i) :
    colCellsN df c = colCellsAt df i := by
  rw [colCellsN, colCellsAt]
  refine List.map_congr_left ?_
  intro r _
  simp [colVal, hidx]

theorem colCellsAt_setColAt {df : DF} {i : ℕ} (f : Cell → Cell)
    (hb : ∀ r ∈ df.rows, i < r.length) :
    colCellsAt (setColAt df i f) i = (colCellsAt df i).map f := by
  rw [colCellsAt, setColAt, colCellsAt]
  simp only [List.map_map]
  refine List.map_congr_left ?_
  intro r hr
  simp only [Function.comp_apply]
  exact aux_getD_set_self Cell.na r i _ (hb r hr)

theorem mem_numsOf {l : List Cell} {q : ℚ} :
    q ∈ numsOf l ↔ ∃ v ∈ l, cellQ? v = some q := by
  simp [numsOf, List.mem_filterMap]

theorem setColAt_cols (df : DF) (i : ℕ) (f : Cell → Cell) :
    (setColAt df i f).cols = df.cols := rfl

theorem normalize_data_single {df df1 : DF} {c : String}
    (h : normalizeCol df c = some df1) : normalize_data df [c] = df1 := by
  rw [normalize_data, normalizeGo, h]
  rfl

/-- C3: normalize_data on a present numeric column whose values are all
equal after mean imputation sets every cell of that column to exactly 0.0;
the division branch is not taken because max minus min is 0 (or the column
is all-missing and min is absent). -/
theorem C3_normalize_constant_column_zero (df : DF) (c : String)
    (hwf : df.WF) (hc : c ∈ df.cols)
    (hnum : numericColOk (colCellsN df c) = true)
    (hconst : ∀ v ∈ colCellsN df c, ∀ w ∈ colCellsN df c,
      fillMeanCell (meanOf (numsOf (colCellsN df c))) v
        = fillMeanCell (meanOf (numsOf (colCellsN df c))) w) :
    ∀ r' ∈ (normalize_data df [c]).rows,
      colVal (normalize_data df [c]).cols c r' = Cell.num 0 := by
  obtain ⟨i, hidx⟩ : ∃ i, idxOf? c df.cols = some i := by
    cases h : idxOf? c df.cols with
    | some i => exact ⟨i, rfl⟩
    | none => exact absurd hc (idxOf?_none_iff.mp h)
  rw [colCellsN_at hidx] at hnum hconst
  have hb : ∀ r ∈ df.rows, i < r.length :=
    fun r hr => (hwf r hr) ▸ idxOf?_some_lt hidx
  have hcc1 : colCellsAt (setColAt df i
        (fillMeanCell (meanOf (numsOf (colCellsAt df i))))) i
      = (colCellsAt df i).map (fillMeanCell (meanOf (numsOf (colCellsAt df i)))) :=
    colCellsAt_setColAt _ hb
  have hkey : normalizeCol df c =
      some (setColAt (setColAt df i (fillMeanCell (meanOf (numsOf (colCellsAt df i))))) i
        (fun _ => Cell.num 0)) := by
    simp only [normalizeCol, hidx, hnum, Bool.not_true, Bool.false_eq_true, if_false]
    cases hmn : minOf (numsOf (colCellsAt (setColAt df i
        (fillMeanCell (meanOf (numsOf (colCellsAt df i))))) i)) with
    | none => rfl
    | some mn =>
      cases hmx : maxOf (numsOf (colCellsAt (setColAt df i
          (fillMeanCell (meanOf (numsOf (colCellsAt df i))))) i)) with
      | none => rfl
      | some mx =>
        have hmne : mn ∈ numsOf (colCellsAt (setColAt df i
            (fillMeanCell (meanOf (numsOf (colCellsAt df i))))) i) := minOf_mem hmn
        have hmxe : mx ∈ numsOf (colCellsAt (setColAt df i
            (fillMeanCell (meanOf (numsOf (colCellsAt df i))))) i) := maxOf_mem hmx
        rw [hcc1] at hmne hmxe
        obtain ⟨v1, hv1, hq1⟩ := mem_numsOf.mp hmne
        obtain ⟨v2, hv2, hq2⟩ := mem_numsOf.mp hmxe
        obtain ⟨w1, hw1, he1⟩ := List.mem_map.mp hv1
        obtain ⟨w2, hw2, he2⟩ := List.mem_map.mp hv2
        have hfw : v1 = v2 := by
          rw [← he1, ← he2]
          exact hconst w1 hw1 w2 hw2
        have : mn = mx := by
          rw [hfw] at hq1
          rw [hq1] at hq2
          exact Option.some.inj hq2
        simp [this]
  rw [normalize_data_single hkey]
  intro r' hr'
  obtain ⟨r1, hr1, he⟩ := List.mem_map.mp hr'
  have hlen : i < r1.length := by
    obtain ⟨r0, hr0, he0⟩ := List.mem_map.mp hr1
    have : r1.length = r0.length := by rw [← he0]; exact List.length_set r0 i _
    rw [this]
    exact hb r0 hr0
  have hcols : (setColAt (setColAt df i
      (fillMeanCell (meanOf (numsOf (colCellsAt df i))))) i
        (fun _ => Cell.num 0)).cols = df.cols := rfl
  rw [hcols]
  simp only [colVal, hidx, ← he]
  exact aux_getD_set_self Cell.na r1 i _ hlen

/-- Witness table for C3: a constant column next to missing values. -/
def T3df : DF := ⟨[sX], [[Cell.num 5], [Cell.num 5], [Cell.na]]⟩

/-- Witness for C3 at a concrete constant column. -/
theorem C3_witness :
    colVal (normalize_data T3df [sX]).cols sX
      ((normalize_data T3df [sX]).rows.getD 2 []) = Cell.num 0 := by
  have hconst : ∀ v ∈ colCellsN T3df sX, ∀ w ∈ colCellsN T3df sX,
      fillMeanCell (meanOf (numsOf (colCellsN T3df sX))) v
        = fillMeanCell (meanOf (numsOf (colCellsN T3df sX))) w := by
    norm_num [colCellsN, colVal, idxOf?, T3df, sX, fillMeanCell, meanOf, numsOf,
      cellQ?, isNaLike, List.filterMap]
  have hmem : (normalize_data T3df [sX]).rows.getD 2 []
      ∈ (normalize_data T3df [sX]).rows := by
    have h : normalize_data T3df [sX]
        = ⟨[sX], [[Cell.num 0], [Cell.num 0], [Cell.num 0]]⟩ := by
      simp only [normalize_data, normalizeGo, normalizeCol, T3df, sX]
      norm_num [idxOf?, colCellsAt, numericColOk, isNaLike, isNumCell, cellQ?, numsOf,
        meanOf, fillMeanCell, setColAt, minOf, maxOf, List.filterMap, colVal]
    rw [h]
    decide
  exact C3_normalize_constant_column_zero T3df sX (by decide) (by decide) (by decide) hconst
    _ hmem

theorem minOf_of_mem {l : List ℚ} {q : ℚ} (h : q ∈ l) : ∃ mn, minOf l = some mn := by
  cases l with
  | nil => simp at h
  | cons a xs => exact ⟨xs.foldl min a, rfl⟩

theorem maxOf_of_mem {l : List ℚ} {q : ℚ} (h : q ∈ l) : ∃ mx, maxOf l = some mx := by
  cases l with
  | nil => simp at h
  | cons a xs => exact ⟨xs.foldl max a, rfl⟩

/-- C4: normalize_data on a present numeric column that is non-constant and
has no missing values remaining after mean imputation rescales every cell
into the closed interval from 0 to 1. -/
theorem C4_normalize_values_in_unit_interval (df : DF) (c : String)
    (hwf : df.WF) (hc : c ∈ df.cols)
    (hnum : numericColOk (colCellsN df c) = true)
    (hfill : ∀ v ∈ colCellsN df c,
      fillMeanCell (meanOf (numsOf (colCellsN df c))) v ≠ Cell.na)
    (hnc : ∃ v ∈ colCellsN df c, ∃ w ∈ colCellsN df c,
      fillMeanCell (meanOf (numsOf (colCellsN df c))) v
        ≠ fillMeanCell (meanOf (numsOf (colCellsN df c))) w) :
    ∀ r' ∈ (normalize_data df [c]).rows, ∃ q,
      colVal (normalize_data df [c]).cols c r' = Cell.num q ∧ 0 ≤ q ∧ q ≤ 1 := by
  obtain ⟨i, hidx⟩ : ∃ i, idxOf? c df.cols = some i := by
    cases h : idxOf? c df.cols with
    | some i => exact ⟨i, rfl⟩
    | none => exact absurd hc (idxOf?_none_iff.mp h)
  rw [colCellsN_at hidx] at hnum hfill hnc
  have hb : ∀ r ∈ df.rows, i < r.length :=
    fun r hr => (hwf r hr) ▸ idxOf?_some_lt hidx
  have hcc1 : colCellsAt (setColAt df i
        (fillMeanCell (meanOf (numsOf (colCellsAt df i))))) i
      = (colCellsAt df i).map (fillMeanCell (meanOf (numsOf (colCellsAt df i)))) :=
    colCellsAt_setColAt _ hb
  have hallnum : ∀ u ∈ (colCellsAt df i).map
      (fillMeanCell (meanOf (numsOf (colCellsAt df i)))), ∃ q, u = Cell.num q := by
    intro u hu
    obtain ⟨v, hv, he⟩ := List.mem_map.mp hu
    by_cases hna : isNaLike v = true
    · cases hm : meanOf (numsOf (colCellsAt df i)) with
      | none =>
        exfalso
        apply hfill v hv
        simp [fillMeanCell, hna, hm]
      | some m =>
        refine ⟨m, ?_⟩
        rw [← he]
        simp [fillMeanCell, hna, hm]
    · have hok := List.all_eq_true.mp hnum v hv
      have hnv : isNumCell v = true := by
        rcases Bool.or_eq_true_iff.mp hok with h | h
        · exact absurd h hna
        · exact h
      cases v with
      | num q =>
        refine ⟨q, ?_⟩
        rw [← he]
        simp [fillMeanCell, isNaLike]
      | na => simp [isNaLike] at hna
      | str s => simp [isNumCell, cellQ?] at hnv
      | clist xs => simp [isNumCell, cellQ?] at hnv
      | cdict xs => simp [isNumCell, cellQ?] at hnv
      | cset xs => simp [isNumCell, cellQ?] at hnv
      | dtime y =>
        cases y with
        | none => simp [isNaLike] at hna
        | some z => simp [isNumCell, cellQ?] at hnv
  obtain ⟨v1, hv1, v2, hv2, hne12⟩ := hnc
  obtain ⟨q1, hq1⟩ := hallnum _ (List.mem_map_of_mem _ hv1)
  obtain ⟨q2, hq2⟩ := hallnum _ (List.mem_map_of_mem _ hv2)
  have hq12 : q1 ≠ q2 := by
    intro he
    apply hne12
    rw [hq1, hq2, he]
  have hq1in : q1 ∈ numsOf ((colCellsAt df i).map
      (fillMeanCell (meanOf (numsOf (colCellsAt df i))))) :=
    mem_numsOf.mpr ⟨_, List.mem_map_of_mem _ hv1, by rw [hq1]; rfl⟩
  have hq2in : q2 ∈ numsOf ((colCellsAt df i).map
      (fillMeanCell (meanOf (numsOf (colCellsAt df i))))) :=
    mem_numsOf.mpr ⟨_, List.mem_map_of_mem _ hv2, by rw [hq2]; rfl⟩
  rw [← hcc1] at hq1in hq2in
  obtain ⟨mn, hmn⟩ := minOf_of_mem hq1in
  obtain ⟨mx, hmx⟩ := maxOf_of_mem hq1in
  have hmnle : ∀ x ∈ numsOf (colCellsAt (setColAt df i
      (fillMeanCell (meanOf (numsOf (colCellsAt df i))))) i), mn ≤ x := minOf_le hmn
  have hmxle : ∀ x ∈ numsOf (colCellsAt (setColAt df i
      (fillMeanCell (meanOf (numsOf (colCellsAt df i))))) i), x ≤ mx := maxOf_le hmx
  have hlt : mn < mx := by
    rcases lt_or_eq_of_le (le_trans (hmnle q1 hq1in) (hmxle q1 hq1in)) with h | h
    · exact h
    · exfalso
      apply hq12
      have e1 : q1 = mn := le_antisymm (h ▸ hmxle q1 hq1in) (hmnle q1 hq1in)
      have e2 : q2 = mn := le_antisymm (h ▸ hmxle q2 hq2in) (hmnle q2 hq2in)
      rw [e1, e2]
  have hsub : mx - mn ≠ 0 := sub_ne_zero.mpr (ne_of_gt hlt)
  have hkey : normalizeCol df c =
      some (setColAt (setColAt df i (fillMeanCell (meanOf (numsOf (colCellsAt df i))))) i
        (rescaleCell mn mx)) := by
    simp only [normalizeCol, hidx, hnum, Bool.not_true, Bool.false_eq_true, if_false]
    rw [hmn, hmx]
    simp [hsub]
  rw [normalize_data_single hkey]
  intro r' hr'
  obtain ⟨r1, hr1, he⟩ := List.mem_map.mp hr'
  have hcell : r1.getD i Cell.na ∈ colCellsAt (setColAt df i
      (fillMeanCell (meanOf (numsOf (colCellsAt df i))))) i :=
    List.mem_map_of_mem _ hr1
  have hcell2 := hcell
  rw [hcc1] at hcell2
  obtain ⟨q, hq⟩ := hallnum _ hcell2
  have hqin : q ∈ numsOf (colCellsAt (setColAt df i
      (fillMeanCell (meanOf (numsOf (colCellsAt df i))))) i) :=
    mem_numsOf.mpr ⟨_, hcell, by rw [hq]; rfl⟩
  have hlen : i < r1.length := by
    obtain ⟨r0, hr0, he0⟩ := List.mem_map.mp hr1
    have : r1.length = r0.length := by rw [← he0]; exact List.length_set r0 i _
    rw [this]
    exact hb r0 hr0
  refine ⟨(q - mn) / (mx - mn), ?_, ?_, ?_⟩
  · have hcols : (setColAt (setColAt df i
        (fillMeanCell (meanOf (numsOf (colCellsAt df i))))) i
          (rescaleCell mn mx)).cols = df.cols := rfl
    rw [hcols]
    simp only [colVal, hidx, ← he]
    rw [aux_getD_set_self Cell.na r1 i _ hlen, hq]
    rfl
  · exact div_nonneg (sub_nonneg.mpr (hmnle q hqin)) (le_of_lt (sub_pos.mpr hlt))
  · exact (div_le_one (sub_pos.mpr hlt)).mpr (sub_le_sub_right (hmxle q hqin) mn)

/-- Witness table for C4: a non-constant numeric column. -/
def T4df : DF := ⟨[sX], [[Cell.num 2], [Cell.num 4], [Cell.num 3]]⟩

/-- Witness for C4 at a concrete non-constant column. -/
theorem C4_witness :
    ∃ q, colVal (normalize_data T4df [sX]).cols sX
      ((normalize_data T4df [sX]).rows.getD 2 []) = Cell.num q ∧ 0 ≤ q ∧ q ≤ 1 := by
  have hmem : (normalize_data T4df [sX]).rows.getD 2 []
      ∈ (normalize_data T4df [sX]).rows := by
    have h : normalize_data T4df [sX]
        = ⟨[sX], [[Cell.num 0], [Cell.num 1], [Cell.num (1 / 2)]]⟩ := by
      simp only [normalize_data, normalizeGo, normalizeCol, T4df, sX]
      norm_num [idxOf?, colCellsAt, numericColOk, isNaLike, isNumCell, cellQ?, numsOf,
        meanOf, fillMeanCell, setColAt, minOf, maxOf, List.filterMap, colVal, rescaleCell]
    rw [h]
    show [Cell.num (1 / 2)] ∈ [[Cell.num 0], [Cell.num 1], [Cell.num (1 / 2)]]
    exact List.mem_cons_of_mem _ (List.mem_cons_of_mem _ (List.mem_cons_self _ _))
  exact C4_normalize_values_in_unit_interval T4df sX (by decide) (by decide) (by decide)
    (by decide) ⟨Cell.num 2, by decide, Cell.num 4, by decide, by decide⟩
    _ hmem

def sH : String := "h"
def sE : String := "e"

theorem devSumSq_singleton (x : ℚ) : devSumSq [x] = 0 := by
  simp [devSumSq, qmean]

/-- C1 amended: calculate_correlation returns None when the merged frame has
fewer than 2 rows or when no row survives dropping missing values in the
two target columns; but when at least 2 merged rows exist and exactly one
numeric row survives the drop, it returns the NaN coefficient, not None,
because the row-count check runs before the drop and only emptiness is
checked after. -/
theorem C1_amended_insufficient_data (A B : DF) (hc ec : String) :
    ((mergedCellPairs A B hc ec).length < 2 →
      calculate_correlation A B hc ec = CorrOutcome.noneResult) ∧
    (keptPairs A B hc ec = [] →
      calculate_correlation A B hc ec = CorrOutcome.noneResult) ∧
    (sYear ∈ A.cols → sYear ∈ B.cols → mergedHasY A B hc → mergedHasY A B ec →
      2 ≤ (mergedCellPairs A B hc ec).length → allNumPairs (keptPairs A B hc ec) = true →
      (keptPairs A B hc ec).length = 1 →
      calculate_correlation A B hc ec = CorrOutcome.nanResult) := by
  refine ⟨?_, ?_, ?_⟩
  · intro h
    by_cases hy : sYear ∈ A.cols ∧ sYear ∈ B.cols
    · simp [calculate_correlation, hy, h]
    · simp [calculate_correlation, hy]
  · intro h
    by_cases hy : sYear ∈ A.cols ∧ sYear ∈ B.cols
    · by_cases hlen : (mergedCellPairs A B hc ec).length < 2
      · simp [calculate_correlation, hy, hlen]
      · by_cases hhas : mergedHasY A B hc ∧ mergedHasY A B ec
        · simp [calculate_correlation, hy, hlen, hhas, h]
        · simp [calculate_correlation, hy, hlen, hhas]
    · simp [calculate_correlation, hy]
  · intro hyA hyB hh1 hh2 hlen hall hklen
    have hne : ¬ (mergedCellPairs A B hc ec).length < 2 := not_lt.mpr hlen
    obtain ⟨p, hp⟩ := List.length_eq_one.mp hklen
    have hkne : ¬ (keptPairs A B hc ec).isEmpty = true := by
      rw [hp]
      simp
    have hvx : devSumSq ((qPairs (keptPairs A B hc ec)).map Prod.fst) = 0 := by
      rw [hp]
      simp [qPairs, devSumSq_singleton]
    simp [calculate_correlation, hyA, hyB, hh1, hh2, hne, hkne, hall, hvx]

/-- Correlation counterexample tables: two merged rows on Year 2000, one of
which has a missing health value. -/
def H1df : DF := ⟨[sYear, sH], [[Cell.num 2000, Cell.num 1], [Cell.num 2000, Cell.na]]⟩

def E1df : DF := ⟨[sYear, sE], [[Cell.num 2000, Cell.num 5]]⟩

/-- Witness for the amended C1: on the concrete tables, exactly one row
survives the drop and the result is the NaN coefficient. -/
theorem C1_amended_witness :
    calculate_correlation H1df E1df sH sE = CorrOutcome.nanResult :=
  (C1_amended_insufficient_data H1df E1df sH sE).2.2 (by decide) (by decide) (by decide)
    (by decide) (by decide) (by decide) (by decide)

/-- C1 counterexample: the inner join of the two tables leaves exactly one
row (fewer than 2) after dropping rows with a missing target value, yet
calculate_correlation does not return the distinguished None: it computes
the NaN coefficient, because its fewer-than-2 check runs before the drop. -/
theorem C1_counterexample :
    (keptPairs H1df E1df sH sE).length < 2 ∧
      calculate_correlation H1df E1df sH sE ≠ CorrOutcome.noneResult := by
  constructor
  · decide
  · have heval : calculate_correlation H1df E1df sH sE = CorrOutcome.nanResult := by
      have h1 : sYear ∈ H1df.cols ∧ sYear ∈ E1df.cols := by decide
      have h2 : ¬ (mergedCellPairs H1df E1df sH sE).length < 2 := by decide
      have h3 : mergedHasY H1df E1df sH ∧ mergedHasY H1df E1df sE := by decide
      have h4 : ¬ (keptPairs H1df E1df sH sE).isEmpty = true := by decide
      have h5 : allNumPairs (keptPairs H1df E1df sH sE) = true := by decide
      have hp : keptPairs H1df E1df sH sE = [(Cell.num 1, Cell.num 5)] := by decide
      have hvx : devSumSq ((qPairs (keptPairs H1df E1df sH sE)).map Prod.fst) = 0 := by
        rw [hp]
        simp [qPairs, devSumSq_singleton]
      simp [calculate_correlation, h1, h2, h3, h4, h5, hvx]
    rw [heval]
    decide

def sUSA : String := "USA"
def sIND : String := "IND"

/-- C2 counterexample tables: same years, different entities. -/
def H2df : DF :=
  ⟨[sIso, sYear, sH],
   [[Cell.str sUSA, Cell.num 2000, Cell.num 1], [Cell.str sUSA, Cell.num 2001, Cell.num 2]]⟩

def E2df : DF :=
  ⟨[sIso, sYear, sE],
   [[Cell.str sIND, Cell.num 2000, Cell.num 5], [Cell.str sIND, Cell.num 2001, Cell.num 6]]⟩

/-- C2 counterexample: the spec join on the shared (entity, year) key is
empty (no entity matches), yet calculate_correlation produces a numeric
coefficient, because it merges on Year alone: rows of USA join rows of
IND. -/
theorem C2_counterexample :
    joinedOnEntityYear sIso H2df E2df = [] ∧
      calculate_correlation H2df E2df sH sE = CorrOutcome.coeff (1 / 2) (1 / 4) := by
  constructor
  · decide
  · have h1 : sYear ∈ H2df.cols ∧ sYear ∈ E2df.cols := by decide
    have h2 : ¬ (mergedCellPairs H2df E2df sH sE).length < 2 := by decide
    have h3 : mergedHasY H2df E2df sH ∧ mergedHasY H2df E2df sE := by decide
    have h4 : ¬ (keptPairs H2df E2df sH sE).isEmpty = true := by decide
    have h5 : allNumPairs (keptPairs H2df E2df sH sE) = true := by decide
    have hp : keptPairs H2df E2df sH sE
        = [(Cell.num 1, Cell.num 5), (Cell.num 2, Cell.num 6)] := by decide
    have hq : qPairs (keptPairs H2df E2df sH sE) = [(1, 5), (2, 6)] := by
      rw [hp]
      rfl
    have hvx : devSumSq ((qPairs (keptPairs H2df E2df sH sE)).map Prod.fst) = 1 / 2 := by
      rw [hq]
      norm_num [devSumSq, qmean]
    have hvy : devSumSq ((qPairs (keptPairs H2df E2df sH sE)).map Prod.snd) = 1 / 2 := by
      rw [hq]
      norm_num [devSumSq, qmean]
    have hcov : covSumOf (qPairs (keptPairs H2df E2df sH sE)) = 1 / 2 := by
      rw [hq]
      norm_num [covSumOf, qmean]
    norm_num [calculate_correlation, h1, h2, h3, h4, h5, hvx, hvy, hcov]

theorem mem_mergedRowPairs (A B : DF) (a b : List Cell) :
    (a, b) ∈ mergedRowPairs A B ↔
      a ∈ A.rows ∧ b ∈ B.rows ∧ colVal A.cols sYear a = colVal B.cols sYear b := by
  constructor
  · intro h
    obtain ⟨a1, ha1, hmem⟩ := List.mem_flatMap.mp h
    obtain ⟨b1, hb1, heq⟩ := List.mem_map.mp hmem
    obtain ⟨hb1m, hy⟩ := List.mem_filter.mp hb1
    have ha : a = a1 := (congrArg Prod.fst heq).symm
    have hb : b = b1 := (congrArg Prod.snd heq).symm
    subst ha
    subst hb
    exact ⟨ha1, hb1m, by simpa using hy⟩
  · intro ⟨ha, hb, hy⟩
    refine List.mem_flatMap.mpr ⟨a, ha, ?_⟩
    refine List.mem_map.mpr ⟨b, ?_, rfl⟩
    refine List.mem_filter.mpr ⟨hb, ?_⟩
    simpa using hy

/-- C2 amended: calculate_correlation computes over the inner merge on Year
alone: a joined row exists exactly when the two Year values match,
irrespective of the entity identifiers of the two rows. -/
theorem C2_amended_merge_on_year_only (A B : DF) (a b : List Cell) :
    (a, b) ∈ mergedRowPairs A B ↔
      a ∈ A.rows ∧ b ∈ B.rows ∧ colVal A.cols sYear a = colVal B.cols sYear b :=
  mem_mergedRowPairs A B a b

theorem aux_beq_comm (x y : Cell) : (x == y) = (y == x) := by
  rw [Bool.eq_iff_iff]
  simp only [beq_iff_eq]
  exact eq_comm

theorem aux_flatMap_ite_singleton {β γ : Type} (l2 : List β) (q : β → Bool) (g : β → γ) :
    (l2.flatMap fun b => if q b then [g b] else []) = (l2.filter q).map g := by
  induction l2 with
  | nil => rfl
  | cons y ys ih =>
    by_cases h : q y = true <;> simp [List.filter_cons, h, ih]

theorem aux_flatMap_comm {α β γ : Type} (l1 : List α) (l2 : List β)
    (p : α → β → Bool) (f : α → β → γ) :
    (l1.flatMap fun a => (l2.filter (p a)).map (f a)).Perm
      (l2.flatMap fun b => (l1.filter (fun a => p a b)).map (fun a => f a b)) := by
  induction l1 with
  | nil => simp
  | cons x xs ih =>
    have hstep : (l2.flatMap fun b => ((x :: xs).filter (fun a => p a b)).map (fun a => f a b))
        = l2.flatMap fun b =>
            (if p x b then [f x b] else [])
              ++ (xs.filter (fun a => p a b)).map (fun a => f a b) := by
      refine List.flatMap_congr ?_
      intro b _
      by_cases h : p x b = true <;> simp [List.filter_cons, h]
    rw [List.flatMap_cons, hstep]
    refine List.Perm.trans ?_ (List.flatMap_append_perm l2 _ _)
    rw [aux_flatMap_ite_singleton l2 (fun b => p x b) (fun b => f x b)]
    exact List.Perm.append_left _ ih

theorem mergedValY_symm {A B : DF} {a b : List Cell}
    (hy : colVal A.cols sYear a = colVal B.cols sYear b) (c : String) :
    mergedValY B A c b a = mergedValY A B c a b := by
  by_cases hc : c = sYear
  · simp [mergedValY, hc, hy]
  · by_cases hA : c ∈ A.cols <;> by_cases hB : c ∈ B.cols <;>
      simp [mergedValY, hc, hA, hB]

theorem mergedRowPairs_swap_perm (A B : DF) :
    (mergedRowPairs B A).Perm ((mergedRowPairs A B).map Prod.swap) := by
  have h1 : (mergedRowPairs A B).map Prod.swap
      = A.rows.flatMap (fun a =>
          (B.rows.filter (fun b => colVal A.cols sYear a == colVal B.cols sYear b)).map
            (fun b => (b, a))) := by
    rw [mergedRowPairs, List.map_flatMap]
    refine List.flatMap_congr ?_
    intro a _
    rw [List.map_map]
    rfl
  have h2 : mergedRowPairs B A
      = B.rows.flatMap (fun b =>
          (A.rows.filter (fun a => colVal A.cols sYear a == colVal B.cols sYear b)).map
            (fun a => (b, a))) := by
    rw [mergedRowPairs]
    refine List.flatMap_congr ?_
    intro b _
    have : (A.rows.filter (fun a => colVal B.cols sYear b == colVal A.cols sYear a))
        = A.rows.filter (fun a => colVal A.cols sYear a == colVal B.cols sYear b) := by
      refine List.filter_congr ?_
      intro a _
      rw [aux_beq_comm]
    rw [this]
  rw [h1, h2]
  exact (aux_flatMap_comm A.rows B.rows
    (fun a b => colVal A.cols sYear a == colVal B.cols sYear b)
    (fun a b => (b, a))).symm

theorem mergedCellPairs_swap_perm (A B : DF) (hc ec : String) :
    (mergedCellPairs B A ec hc).Perm ((mergedCellPairs A B hc ec).map Prod.swap) := by
  have hmapped : ((mergedRowPairs A B).map Prod.swap).map
      (fun p => (mergedValY B A ec p.1 p.2, mergedValY B A hc p.1 p.2))
      = (mergedCellPairs A B hc ec).map Prod.swap := by
    rw [mergedCellPairs, List.map_map, List.map_map]
    refine List.map_congr_left ?_
    intro p hp
    have hy : colVal A.cols sYear p.1 = colVal B.cols sYear p.2 := by
      obtain ⟨a, b⟩ := p
      exact ((mem_mergedRowPairs A B a b).mp hp).2.2
    simp only [Function.comp_apply, Prod.fst_swap, Prod.snd_swap, Prod.swap_prod_mk]
    rw [mergedValY_symm hy ec, mergedValY_symm hy hc]
  rw [mergedCellPairs]
  refine List.Perm.trans ((mergedRowPairs_swap_perm A B).map _) ?_
  rw [hmapped]

theorem devSumSq_perm {l1 l2 : List ℚ} (h : l1.Perm l2) : devSumSq l1 = devSumSq l2 := by
  have hm : qmean l1 = qmean l2 := by
    rw [qmean, qmean, h.sum_eq, h.length_eq]
  rw [devSumSq, devSumSq, hm]
  exact (h.map _).sum_eq

theorem keptPairs_swap_perm (A B : DF) (hc ec : String) :
    (keptPairs B A ec hc).Perm ((keptPairs A B hc ec).map Prod.swap) := by
  rw [keptPairs, keptPairs]
  have h1 := (mergedCellPairs_swap_perm A B hc ec).filter
    (fun p => !(isNaLike p.1) && !(isNaLike p.2))
  refine List.Perm.trans h1 ?_
  rw [List.map_filter _ _]
  have : ((fun p => !(isNaLike p.1) && !(isNaLike p.2)) ∘ Prod.swap)
      = fun p : Cell × Cell => !(isNaLike p.2) && !(isNaLike p.1) := rfl
  rw [this]
  have hcong : (mergedCellPairs A B hc ec).filter
      (fun p => !(isNaLike p.2) && !(isNaLike p.1))
      = (mergedCellPairs A B hc ec).filter (fun p => !(isNaLike p.1) && !(isNaLike p.2)) := by
    refine List.filter_congr ?_
    intro p _
    exact Bool.and_comm _ _
  rw [hcong]

theorem qPairs_map_swap (l : List (Cell × Cell)) :
    qPairs (l.map Prod.swap) = (qPairs l).map Prod.swap := by
  rw [qPairs, qPairs, List.map_map, List.map_map]
  rfl

theorem allNumPairs_swap_perm {l1 l2 : List (Cell × Cell)}
    (h : l2.Perm (l1.map Prod.swap)) : allNumPairs l2 = allNumPairs l1 := by
  rw [Bool.eq_iff_iff, allNumPairs, allNumPairs, List.all_eq_true, List.all_eq_true]
  constructor
  · intro hall p hp
    have hps : p.swap ∈ l2 := by
      rw [h.mem_iff]
      exact List.mem_map_of_mem _ hp
    have := hall _ hps
    simp only [Prod.fst_swap, Prod.snd_swap] at this
    rw [Bool.and_comm] at this
    exact this
  · intro hall p hp
    rw [h.mem_iff] at hp
    obtain ⟨q, hq, he⟩ := List.mem_map.mp hp
    have := hall q hq
    rw [← he]
    simp only [Prod.fst_swap, Prod.snd_swap]
    rw [Bool.and_comm] at this
    exact this

theorem covSumOf_swap_eq {l1 l2 : List (ℚ × ℚ)}
    (h : l2.Perm (l1.map Prod.swap)) : covSumOf l2 = covSumOf l1 := by
  have hfst : (l2.map Prod.fst).Perm (l1.map Prod.snd) := by
    have hm := h.map Prod.fst
    rw [List.map_map] at hm
    exact hm
  have hsnd : (l2.map Prod.snd).Perm (l1.map Prod.fst) := by
    have hm := h.map Prod.snd
    rw [List.map_map] at hm
    exact hm
  have hm1 : qmean (l2.map Prod.fst) = qmean (l1.map Prod.snd) := by
    rw [qmean, qmean, hfst.sum_eq, hfst.length_eq]
  have hm2 : qmean (l2.map Prod.snd) = qmean (l1.map Prod.fst) := by
    rw [qmean, qmean, hsnd.sum_eq, hsnd.length_eq]
  rw [covSumOf, covSumOf, hm1, hm2]
  have hsum := (h.map (fun p : ℚ × ℚ =>
    (p.1 - qmean (l1.map Prod.snd)) * (p.2 - qmean (l1.map Prod.fst)))).sum_eq
  rw [hsum, List.map_map]
  congr 1
  refine List.map_congr_left ?_
  intro p _
  simp only [Function.comp_apply, Prod.fst_swap, Prod.snd_swap]
  ring

theorem mergedHasY_symm (A B : DF) (c : String) :
    mergedHasY B A c ↔ mergedHasY A B c := by
  rw [mergedHasY, mergedHasY]
  tauto

/-- C5: correlation is symmetric: swapping the two tables and the two target
columns gives the same outcome, exactly (the None and NaN cases coincide,
and the coefficient representation is identical, since the deviation
product sum and the variance product are invariant under the swap). -/
theorem C5_correlation_symmetric (A B : DF) (hc ec : String) :
    calculate_correlation A B hc ec = calculate_correlation B A ec hc := by
  have hkp := keptPairs_swap_perm A B hc ec
  have hmlen : (mergedCellPairs B A ec hc).length = (mergedCellPairs A B hc ec).length := by
    rw [(mergedCellPairs_swap_perm A B hc ec).length_eq, List.length_map]
  have hklen : (keptPairs B A ec hc).length = (keptPairs A B hc ec).length := by
    rw [hkp.length_eq, List.length_map]
  have hkemp : (keptPairs B A ec hc).isEmpty = (keptPairs A B hc ec).isEmpty := by
    rw [Bool.eq_iff_iff, List.isEmpty_iff, List.isEmpty_iff,
      ← List.length_eq_zero, ← List.length_eq_zero, hklen]
  have hall : allNumPairs (keptPairs B A ec hc) = allNumPairs (keptPairs A B hc ec) :=
    allNumPairs_swap_perm hkp
  have hqp : (qPairs (keptPairs B A ec hc)).Perm
      ((qPairs (keptPairs A B hc ec)).map Prod.swap) := by
    have h := hkp.map (fun p : Cell × Cell => (qOf p.1, qOf p.2))
    rw [show ((keptPairs A B hc ec).map Prod.swap).map
        (fun p : Cell × Cell => (qOf p.1, qOf p.2))
      = qPairs ((keptPairs A B hc ec).map Prod.swap) from rfl] at h
    rw [qPairs_map_swap] at h
    exact h
  have hvx : devSumSq ((qPairs (keptPairs B A ec hc)).map Prod.fst)
      = devSumSq ((qPairs (keptPairs A B hc ec)).map Prod.snd) := by
    apply devSumSq_perm
    have h := hqp.map Prod.fst
    rw [List.map_map] at h
    exact h
  have hvy : devSumSq ((qPairs (keptPairs B A ec hc)).map Prod.snd)
      = devSumSq ((qPairs (keptPairs A B hc ec)).map Prod.fst) := by
    apply devSumSq_perm
    have h := hqp.map Prod.snd
    rw [List.map_map] at h
    exact h
  have hcov : covSumOf (qPairs (keptPairs B A ec hc))
      = covSumOf (qPairs (keptPairs A B hc ec)) :=
    covSumOf_swap_eq hqp
  by_cases hy1 : sYear ∈ A.cols ∧ sYear ∈ B.cols
  case neg =>
    have hy2 : ¬ (sYear ∈ B.cols ∧ sYear ∈ A.cols) := fun h => hy1 ⟨h.2, h.1⟩
    simp [calculate_correlation, hy1, hy2]
  case pos =>
  have hy2 : sYear ∈ B.cols ∧ sYear ∈ A.cols := ⟨hy1.2, hy1.1⟩
  by_cases hlen : (mergedCellPairs A B hc ec).length < 2
  case pos =>
    have hlen2 : (mergedCellPairs B A ec hc).length < 2 := by rw [hmlen]; exact hlen
    simp [calculate_correlation, hy1, hy2, hlen, hlen2]
  case neg =>
  have hlen2 : ¬ (mergedCellPairs B A ec hc).length < 2 := by rw [hmlen]; exact hlen
  by_cases hhas1 : mergedHasY A B hc ∧ mergedHasY A B ec
  case neg =>
    have hhas2 : ¬ (mergedHasY B A ec ∧ mergedHasY B A hc) := by
      intro h
      exact hhas1 ⟨(mergedHasY_symm A B hc).mp h.2, (mergedHasY_symm A B ec).mp h.1⟩
    simp [calculate_correlation, hy1, hy2, hlen, hlen2, hhas1, hhas2]
  case pos =>
  have hhas2 : mergedHasY B A ec ∧ mergedHasY B A hc :=
    ⟨(mergedHasY_symm A B ec).mpr hhas1.2, (mergedHasY_symm A B hc).mpr hhas1.1⟩
  by_cases hke : (keptPairs A B hc ec).isEmpty = true
  case pos =>
    have hke2 : (keptPairs B A ec hc).isEmpty = true := by rw [hkemp]; exact hke
    simp [calculate_correlation, hy1, hy2, hlen, hlen2, hhas1, hhas2, hke, hke2]
  case neg =>
  have hke2 : ¬ (keptPairs B A ec hc).isEmpty = true := by rw [hkemp]; exact hke
  by_cases han : allNumPairs (keptPairs A B hc ec) = true
  case neg =>
    have han2 : ¬ allNumPairs (keptPairs B A ec hc) = true := by rw [hall]; exact han
    simp [calculate_correlation, hy1, hy2, hlen, hlen2, hhas1, hhas2, hke, hke2, han, han2]
  case pos =>
  have han2 : allNumPairs (keptPairs B A ec hc) = true := by rw [hall]; exact han
  have hfin1 : calculate_correlation A B hc ec
      = if devSumSq ((qPairs (keptPairs A B hc ec)).map Prod.fst) = 0
          ∨ devSumSq ((qPairs (keptPairs A B hc ec)).map Prod.snd) = 0
        then CorrOutcome.nanResult
        else CorrOutcome.coeff (covSumOf (qPairs (keptPairs A B hc ec)))
          (devSumSq ((qPairs (keptPairs A B hc ec)).map Prod.fst)
            * devSumSq ((qPairs (keptPairs A B hc ec)).map Prod.snd)) := by
    simp [calculate_correlation, hy1, hlen, hhas1, hke, han]
  have hfin2 : calculate_correlation B A ec hc
      = if devSumSq ((qPairs (keptPairs A B hc ec)).map Prod.snd) = 0
          ∨ devSumSq ((qPairs (keptPairs A B hc ec)).map Prod.fst) = 0
        then CorrOutcome.nanResult
        else CorrOutcome.coeff (covSumOf (qPairs (keptPairs A B hc ec)))
          (devSumSq ((qPairs (keptPairs A B hc ec)).map Prod.snd)
            * devSumSq ((qPairs (keptPairs A B hc ec)).map Prod.fst)) := by
    rw [show calculate_correlation B A ec hc
        = if devSumSq ((qPairs (keptPairs B A ec hc)).map Prod.fst) = 0
            ∨ devSumSq ((qPairs (keptPairs B A ec hc)).map Prod.snd) = 0
          then CorrOutcome.nanResult
          else CorrOutcome.coeff (covSumOf (qPairs (keptPairs B A ec hc)))
            (devSumSq ((qPairs (keptPairs B A ec hc)).map Prod.fst)
              * devSumSq ((qPairs (keptPairs B A ec hc)).map Prod.snd))
      from by simp [calculate_correlation, hy2, hlen2, hhas2, hke2, han2]]
    rw [hvx, hvy, hcov]
  rw [hfin1, hfin2]
  by_cases hz : devSumSq ((qPairs (keptPairs A B hc ec)).map Prod.fst) = 0
      ∨ devSumSq ((qPairs (keptPairs A B hc ec)).map Prod.snd) = 0
  · rw [if_pos hz, if_pos (Or.symm hz)]
  · rw [if_neg hz, if_neg (fun h => hz (Or.symm h)), mul_comm]

/-- C8: when the inner join of the training tables on iso_code and Year
leaves exactly one row, train_economic_model returns the failure signal
(absent rmse and r2) and persists nothing, for every possible behaviour of
the downstream fit and evaluation: the train test split raises on an empty
training partition before any model exists, and the artifact dump runs only
after successful evaluation. -/
theorem C8_train_one_row_fails_no_persist
    (fitEval : List (List ℚ) → List ℚ → ℕ → Option (ℚ × ℚ))
    (health econ : DF) (target : String)
    (h : (mergedKeyPairs health econ).length = 1) :
    train_economic_model fitEval health econ target = trainFail := by
  simp only [train_economic_model]
  split
  · rfl
  split
  · rfl
  split
  · rfl
  split
  · rfl
  split
  · rfl
  next hcond =>
    exfalso
    apply hcond
    rw [h]
    exact Or.inr (by norm_num)

/-- Witness tables for C8: a single matching (iso_code, Year) pair. -/
def C8hdf : DF :=
  ⟨[sIso, sYear, sNewCases], [[Cell.str sUSA, Cell.num 2020, Cell.num 5]]⟩

def C8edf : DF :=
  ⟨[sIso, sYear, sValue], [[Cell.str sUSA, Cell.num 2020, Cell.num 7]]⟩

/-- Witness for C8: even a fit that would succeed cannot run, the split
fails first. -/
theorem C8_witness :
    train_economic_model (fun _ _ _ => some (0, 0)) C8hdf C8edf sValue = trainFail :=
  C8_train_one_row_fails_no_persist (fun _ _ _ => some (0, 0)) C8hdf C8edf sValue (by decide)

theorem aux_nodup_keyrows (k1 k2 : String) (hne : ¬ k1 = k2) (aggCols : List String)
    (keys : List (Cell × Cell)) (restf : Cell × Cell → List Cell) (hnd : keys.Nodup) :
    ((keys.map (fun k => k.1 :: k.2 :: restf k)).map
      (fun r => (colVal (k1 :: k2 :: aggCols) k1 r, colVal (k1 :: k2 :: aggCols) k2 r))).Nodup := by
  rw [List.map_map]
  have hproj : ∀ k : Cell × Cell, ((fun r => (colVal (k1 :: k2 :: aggCols) k1 r,
      colVal (k1 :: k2 :: aggCols) k2 r)) ∘ (fun k : Cell × Cell => k.1 :: k.2 :: restf k)) k
        = k := by
    intro k
    simp [colVal, idxOf?, hne]
  rw [List.map_congr_left (fun k _ => hproj k)]
  simpa using hnd

theorem groupbyMean2_nodup_keys {k1 k2 : String} {aggCols : List String} {df out : DF}
    (hne : ¬ k1 = k2) (h : groupbyMean2 k1 k2 aggCols df = some out) :
    (out.rows.map (fun r => (colVal out.cols k1 r, colVal out.cols k2 r))).Nodup := by
  rw [groupbyMean2] at h
  split at h
  · split at h
    · simp at h
    · have hout := Option.some.inj h
      rw [← hout]
      exact aux_nodup_keyrows k1 k2 hne aggCols _ _ (List.nodup_dedup _)
  · simp at h

theorem transform_health_shape (df : DF) :
    transform_health_data df = DF.emptyDF ∨
      ∃ dfy, groupbyMean2 sCountry sYear (numericColsExYear dfy) dfy
        = some (transform_health_data df) := by
  simp only [transform_health_data]
  split
  · left
    rfl
  · split
    · left
      rfl
    · split
      · left
        rfl
      · split
        · next dfy out heq =>
          right
          exact ⟨_, heq⟩
        · left
          rfl

theorem transform_economic_shape (df : DF) :
    transform_economic_data df = DF.emptyDF ∨
      ∃ df2, groupbyMean2 sSeries sYear (numericColsExYear df2) df2
        = some (transform_economic_data df) := by
  simp only [transform_economic_data]
  split
  · left
    rfl
  · split
    · left
      rfl
    · split
      · next df2 out heq =>
        right
        exact ⟨_, heq⟩
      · left
        rfl

/-- C9: the transform stages produce at most one row per key pair: the
projection of the output rows of transform_health_data onto (country_code,
Year) has no duplicates, and likewise for transform_economic_data onto
(series_id, Year); each group row carries the means of the numeric columns
by construction of the final groupby. -/
theorem C9_transform_one_row_per_key (dfh dfe : DF) :
    ((transform_health_data dfh).rows.map (fun r =>
      (colVal (transform_health_data dfh).cols sCountry r,
        colVal (transform_health_data dfh).cols sYear r))).Nodup ∧
    ((transform_economic_data dfe).rows.map (fun r =>
      (colVal (transform_economic_data dfe).cols sSeries r,
        colVal (transform_economic_data dfe).cols sYear r))).Nodup := by
  constructor
  · rcases transform_health_shape dfh with h | ⟨dfy, hg⟩
    · rw [h]
      exact List.nodup_nil
    · exact groupbyMean2_nodup_keys (by decide) hg
  · rcases transform_economic_shape dfe with h | ⟨df2, hg⟩
    · rw [h]
      exact List.nodup_nil
    · exact groupbyMean2_nodup_keys (by decide) hg
